import Mathlib

/-!
# simple-coroutine: a multi-threaded stackful coroutine pool

A shallow embedding of `coroutine.h` / `coroutine.cpp` (namespace `comm`):

* `ArraySyncQueue`  : the bounded ring of task pointers used as the job queue;
* `Future`          : the completion handle;
* `CoroutinePool::LoopWork` : the per-thread scheduler loop over the fiber ring;
* `Coroutine::Switch`, `GetRsp`, `SaveReg` : the context switch, over a register
  file and a byte-addressed memory.

Machine integers are natural numbers; `uint32_t` arithmetic is reduced modulo
`2^32` and 64-bit addresses modulo `2^64` wherever the source can overflow.
A null pointer is `none`.
-/

set_option autoImplicit false

namespace comm

/-- Reduction to `uint32_t`. -/
def u32 (n : Nat) : Nat := n % 4294967296

/-- Reduction to a 64-bit word (`size_t`, pointers, general registers). -/
def u64 (n : Nat) : Nat := n % 18446744073709551616

/-! ## ArraySyncQueue (coroutine.h 44-63, coroutine.cpp 240-314) -/

/-- The data members of `ArraySyncQueue<T>`. A cell of `m_vecQueue` is a `T*`;
`none` is `nullptr`. -/
structure ArraySyncQueue (T : Type) where
  m_vecQueue : List (Option T)
  m_uPushCursor : Nat
  m_uPopCursor : Nat
  m_uSleepUs : Nat
  m_uRetryTimes : Nat
deriving DecidableEq

namespace ArraySyncQueue

variable {T : Type}

/-- The constructor: `max(uCapacity, 1u)` cells, each `nullptr`; both cursors
start at their default member initialiser `0`. -/
def ctor (uCapacity uSleepUs uRetryTimes : Nat) : ArraySyncQueue T :=
  { m_vecQueue := List.replicate (max uCapacity 1) none
    m_uPushCursor := 0
    m_uPopCursor := 0
    m_uSleepUs := uSleepUs
    m_uRetryTimes := uRetryTimes }

/-- The value of `m_vecQueue.size() - 1`, computed in `size_t`. -/
def sizeMinusOne (q : ArraySyncQueue T) : Nat :=
  u64 (q.m_vecQueue.length + 18446744073709551616 - 1)

/-- The fullness test of `Push` (and of `IsFull`) for a push cursor value:
`uPushCursor == m_uPopCursor - 1 ||
 (m_uPopCursor == 0 && uPushCursor == m_vecQueue.size() - 1)`;
`m_uPopCursor - 1` is computed in `uint32_t`. -/
def fullAt (q : ArraySyncQueue T) (uPushCursor : Nat) : Bool :=
  uPushCursor == u32 (q.m_uPopCursor + 4294967296 - 1) ||
    (q.m_uPopCursor == 0 && uPushCursor == q.sizeMinusOne)

/-- Models `IsFull()` of coroutine.h line 50. -/
def IsFull (q : ArraySyncQueue T) : Bool := q.fullAt q.m_uPushCursor

/-- Models `IsEmpty()` of coroutine.h line 51. -/
def IsEmpty (q : ArraySyncQueue T) : Bool := q.m_uPopCursor == q.m_uPushCursor

/-- Models `GetNextCursor`: `0` after the last cell, else `uCursor + 1` (in `uint32_t`). -/
def GetNextCursor (q : ArraySyncQueue T) (uCursor : Nat) : Nat :=
  if uCursor = q.sizeMinusOne then 0 else u32 (uCursor + 1)

/-- The retry loop of `Push` when no other thread touches the queue. One unit
of fuel is one evaluation of the loop condition; `none` means the fuel ran out
before the call returned. The compare-and-swap on `m_vecQueue[uPushCursor]`
from `nullptr` to `pObj` succeeds exactly when the cell holds `nullptr`; a
failed attempt leaves the queue as it was and increments the `uint32_t` retry
counter. -/
def pushLoop (pObj : T) : Nat → Nat → ArraySyncQueue T → Option (Bool × ArraySyncQueue T)
  | 0, _, _ => none
  | fuel + 1, uRetryTimes, q =>
    if uRetryTimes ≤ q.m_uRetryTimes then
      let uPushCursor := q.m_uPushCursor
      if q.fullAt uPushCursor then
        some (false, q)
      else
        match q.m_vecQueue.getD uPushCursor none with
        | some _ => pushLoop pObj fuel (u32 (uRetryTimes + 1)) q
        | none =>
          some (true,
            { q with
              m_vecQueue := q.m_vecQueue.set uPushCursor (some pObj)
              m_uPushCursor := q.GetNextCursor uPushCursor })
    else
      some (false, q)

/-- Models `Push(pObj)`: the returned flag and the queue afterwards. -/
def Push (fuel : Nat) (q : ArraySyncQueue T) (pObj : Option T) :
    Option (Bool × ArraySyncQueue T) :=
  match pObj with
  | none => some (false, q)
  | some p => pushLoop p fuel 0 q

/-- The retry loop of `Pop` when no other thread touches the queue. The
compare-and-swap from the value just read to `nullptr` then always succeeds,
so an attempt fails only when the cell read is `nullptr`. -/
def popLoop : Nat → Nat → ArraySyncQueue T → Option (Option T × ArraySyncQueue T)
  | 0, _, _ => none
  | fuel + 1, uRetryTimes, q =>
    if uRetryTimes ≤ q.m_uRetryTimes then
      let uPopCursor := q.m_uPopCursor
      if uPopCursor = q.m_uPushCursor then
        some (none, q)
      else
        match q.m_vecQueue.getD uPopCursor none with
        | none => popLoop fuel (u32 (uRetryTimes + 1)) q
        | some pToReturn =>
          some (some pToReturn,
            { q with
              m_vecQueue := q.m_vecQueue.set uPopCursor none
              m_uPopCursor := q.GetNextCursor uPopCursor })
    else
      some (none, q)

/-- Models `Pop()`: the returned pointer and the queue afterwards. -/
def Pop (fuel : Nat) (q : ArraySyncQueue T) : Option (Option T × ArraySyncQueue T) :=
  popLoop fuel 0 q

/-- The number of cells that hold a task pointer. -/
def occupied (q : ArraySyncQueue T) : Nat :=
  q.m_vecQueue.countP (fun c => c.isSome)

/-- The queue `q` holds exactly the items of `l`, oldest first, in the cells
from the pop cursor up to the push cursor; all other cells are `nullptr`. -/
structure Rep (q : ArraySyncQueue T) (l : List T) : Prop where
  size_pos : 1 ≤ q.m_vecQueue.length
  size_lt : q.m_vecQueue.length < 4294967296
  pop_lt : q.m_uPopCursor < q.m_vecQueue.length
  len_lt : l.length < q.m_vecQueue.length
  push_eq : q.m_uPushCursor = (q.m_uPopCursor + l.length) % q.m_vecQueue.length
  cell : ∀ i, i < q.m_vecQueue.length →
    q.m_vecQueue.getD ((q.m_uPopCursor + i) % q.m_vecQueue.length) none = l[i]?
  occ : q.occupied = l.length

end ArraySyncQueue

/-- A call on the queue: `Push(pObj)` or `Pop()`. -/
inductive QueueCall (T : Type) where
  | push (pObj : Option T)
  | pop
deriving DecidableEq

/-- What a sequence of calls has produced so far: the items whose `Push`
returned `true` and the non-null values returned by `Pop`, both in call
order. -/
structure QueueLog (T : Type) where
  pushed : List T
  popped : List T
deriving DecidableEq

/-- One call, run to completion with the given fuel, recorded in the log. -/
def callQueue {T : Type} (fuel : Nat) (st : ArraySyncQueue T × QueueLog T) :
    QueueCall T → Option (ArraySyncQueue T × QueueLog T)
  | .push pObj =>
    match ArraySyncQueue.Push fuel st.1 pObj, pObj with
    | some (true, q), some p => some (q, { st.2 with pushed := st.2.pushed ++ [p] })
    | some (_, q), _ => some (q, st.2)
    | none, _ => none
  | .pop =>
    match ArraySyncQueue.Pop fuel st.1 with
    | some (some p, q) => some (q, { st.2 with popped := st.2.popped ++ [p] })
    | some (none, q) => some (q, st.2)
    | none => none

/-- A sequence of calls made one after the other by a single thread. -/
def runQueue {T : Type} (fuel : Nat) :
    ArraySyncQueue T × QueueLog T → List (QueueCall T) → Option (ArraySyncQueue T × QueueLog T)
  | st, [] => some st
  | st, c :: cs =>
    match callQueue fuel st c with
    | some st1 => runQueue fuel st1 cs
    | none => none

/-- What holds of the queue and the log after any sequence of uncontended
calls on a queue built with capacity `uCapacity`: the queue holds, oldest
first, exactly the items pushed and not yet popped. -/
def QueueGood {T : Type} (uCapacity : Nat) (st : ArraySyncQueue T × QueueLog T) : Prop :=
  ∃ l : List T, ArraySyncQueue.Rep st.1 l ∧ st.2.pushed = st.2.popped ++ l ∧
    st.1.m_vecQueue.length = max uCapacity 1

/-- What one iteration of the loop of `Push` sees of the shared queue when
other threads run at the same time: the cursor values it reads and whether its
compare-and-swap on the cell succeeds. -/
structure PushView where
  uPushCursor : Nat
  uPopCursor : Nat
  casOk : Bool
deriving DecidableEq

/-- How a contended `Push` ended: the flag returned and the number of
compare-and-swap attempts made. -/
structure PushOutcome where
  result : Bool
  casAttempts : Nat
deriving DecidableEq

/-- The retry loop of `Push` under contention. `view k` is what the `k`-th
iteration observes; `size` is `m_vecQueue.size()`; `attempts` counts the
compare-and-swaps made so far. One unit of fuel is one evaluation of the loop
condition; `none` means the call has not returned within the fuel. -/
def pushLoopContended (m_uRetryTimes size : Nat) (view : Nat → PushView) :
    Nat → Nat → Nat → Nat → Option PushOutcome
  | 0, _, _, _ => none
  | fuel + 1, k, uRetryTimes, attempts =>
    if uRetryTimes ≤ m_uRetryTimes then
      let v := view k
      if v.uPushCursor == u32 (v.uPopCursor + 4294967296 - 1) ||
          (v.uPopCursor == 0 && v.uPushCursor == u64 (size + 18446744073709551616 - 1)) then
        some { result := false, casAttempts := attempts }
      else if v.casOk then
        some { result := true, casAttempts := attempts + 1 }
      else
        pushLoopContended m_uRetryTimes size view fuel (k + 1) (u32 (uRetryTimes + 1))
          (attempts + 1)
    else
      some { result := false, casAttempts := attempts }

/-- Models `Push(pObj)` for a non-null `pObj` under contention. -/
def PushContended (m_uRetryTimes size : Nat) (view : Nat → PushView) (fuel : Nat) :
    Option PushOutcome :=
  pushLoopContended m_uRetryTimes size view fuel 0 0 0

/-! ## Future (coroutine.h 202-229, coroutine.cpp 218-236) -/

/-- The state of a `Future` that its callers observe: `m_bFinished`. The mutex
and the condition variable appear through `WaitOutcome`. -/
structure Future where
  m_bFinished : Bool
deriving DecidableEq

/-- The result type of `std::condition_variable::wait_for`. -/
inductive cv_status where
  | no_timeout
  | timeout
deriving DecidableEq

/-- What happens while `Get` is blocked in `m_oCondition.wait_for`, with the
mutex released: whether some thread ran `SetFinished` on this handle, and the
status the wait returns. The only `notify_all` on `m_oCondition` is the one in
`SetFinished`; a wait that returns `no_timeout` without it is a spurious
wakeup, which `wait_for` permits. -/
structure WaitOutcome where
  setFinishedCalled : Bool
  status : cv_status
deriving DecidableEq

namespace Future

/-- The constructor: `m_bFinished = false`. -/
def ctor : Future := { m_bFinished := false }

/-- Models `SetFinished()`: sets the flag under the lock (and then notifies). -/
def SetFinished (f : Future) : Future := { f with m_bFinished := true }

/-- Models `Get(uTimeoutMs)`: the value returned and the handle when it returns. With
the flag already set it returns `true` at once; otherwise it returns whether
`wait_for` reported `no_timeout`. -/
def Get (f : Future) (_uTimeoutMs : Nat) (w : WaitOutcome) : Bool × Future :=
  if f.m_bFinished then
    (true, f)
  else
    let f1 := if w.setFinishedCalled then f.SetFinished else f
    (w.status == cv_status.no_timeout, f1)

end Future

/-! ## The worker loop (coroutine.h 31-41, 95, 151-198; coroutine.cpp 19-54, 97-103, 128-214) -/

/-- A task's `m_userFunc`: the empty lambda that `Register()` installs, or a
callable handed to `Submit`. What the callable does is outside the model. -/
inductive UserFunc where
  | empty
  | user (id : Nat)
deriving DecidableEq

/-- Models `struct CoroutineTaskCtx`. `m_pFuture` is a `shared_ptr<Future>`: `none` is
`nullptr`, `some k` points to the handle numbered `k`. -/
structure CoroutineTaskCtx where
  m_userFunc : UserFunc
  m_pFuture : Option Nat
deriving DecidableEq

/-- The part of a `Coroutine` that the scheduler reads: `m_pTaskCtx`
(`none` is `nullptr`). The register frame `m_pRegister` and the stack
`m_pStack` are modelled with `Switch` below. -/
structure Coroutine where
  m_pTaskCtx : Option CoroutineTaskCtx
deriving DecidableEq

namespace Coroutine

/-- The constructor: `m_pTaskCtx = nullptr`. -/
def ctor : Coroutine := { m_pTaskCtx := none }

/-- Models `HasTask()`: `m_pTaskCtx != nullptr`. -/
def HasTask (c : Coroutine) : Bool := c.m_pTaskCtx.isSome

/-- Models `Register()`, the overload for the main coroutine: a fresh task context
with an empty `m_userFunc` and a null `m_pFuture` (then `SaveReg()`). -/
def Register (_c : Coroutine) : Coroutine :=
  { m_pTaskCtx := some { m_userFunc := UserFunc.empty, m_pFuture := none } }

/-- Models `Register(pTaskCtx)`, the overload for the fibers: `m_pTaskCtx = pTaskCtx`
(then `SaveReg()`). -/
def RegisterTask (_c : Coroutine) (pTaskCtx : Option CoroutineTaskCtx) : Coroutine :=
  { m_pTaskCtx := pTaskCtx }

end Coroutine

/-- Models `struct CoroutinePoolCtx`, the thread-local scheduler context. -/
structure CoroutinePoolCtx where
  m_vecCoroutine : List Coroutine
  m_pMainCoroutine : Option Coroutine
  m_uCursor : Nat
  m_uWorkCnt : Nat
deriving DecidableEq

/-- The members of `CoroutinePool` that `LoopWork` reads. -/
structure CoroutinePool where
  m_bStarted : Bool
  m_uThreadCnt : Nat
  m_uRoutineCnt : Nat
  m_queueJob : ArraySyncQueue CoroutineTaskCtx
deriving DecidableEq

/-- The constructor of `CoroutinePool`; the queue takes its default
`uSleepUs = 100` and `uRetryTimes = 3`. -/
def CoroutinePool.ctor (uThreadCnt uCoroutineCnt uJobQueueSize : Nat) : CoroutinePool :=
  { m_bStarted := false
    m_uThreadCnt := max uThreadCnt 1
    m_uRoutineCnt := max uCoroutineCnt 1
    m_queueJob := ArraySyncQueue.ctor uJobQueueSize 100 3 }

/-- A worker thread inside `LoopWork`: the pool it shares, its own scheduler
context, the handles on which its fibers have called `SetFinished`, and
whether `LoopWork` has returned. -/
structure Worker where
  oPool : CoroutinePool
  ctx : CoroutinePoolCtx
  finished : List Nat
  returned : Bool
deriving DecidableEq

/-- How control comes back to the main coroutine after `Switch(main, fiber)`:
the user function called `CoYield()`, or it returned and `DoWork` ran to its
final `Yield()`. -/
inductive FiberRun where
  | yields
  | returns
deriving DecidableEq

/-- Models `MoveCursor()`: `0` after the last fiber, else `m_uCursor + 1`. -/
def MoveCursor (ctx : CoroutinePoolCtx) : CoroutinePoolCtx :=
  { ctx with
    m_uCursor :=
      if ctx.m_uCursor = u64 (ctx.m_vecCoroutine.length + 18446744073709551616 - 1) then 0
      else u32 (ctx.m_uCursor + 1) }

/-- Models `DoWork(pThis)` from the return of the user function on, for the fiber at
index `i` of the ring: `m_pFuture->SetFinished()`, `m_pTaskCtx.reset()`,
`m_uWorkCnt--`, then `Yield()` back to the main coroutine. A null `m_pTaskCtx`
or `m_pFuture` is a null dereference (`none`). -/
def DoWork (w : Worker) (i : Nat) : Option Worker :=
  match w.ctx.m_vecCoroutine[i]? with
  | some { m_pTaskCtx := some { m_userFunc := _, m_pFuture := some k } } =>
    some { w with
      finished := k :: w.finished
      ctx := { w.ctx with
        m_vecCoroutine := w.ctx.m_vecCoroutine.set i { m_pTaskCtx := none }
        m_uWorkCnt := u32 (w.ctx.m_uWorkCnt + 4294967296 - 1) } }
  | _ => none

/-- Models `Switch(pMainCoroutine, pCurCoroutine)` as the scheduler sees it, for the
fiber at index `i`: the fiber runs until it switches back. -/
def switchInto (w : Worker) (i : Nat) : FiberRun → Option Worker
  | FiberRun.yields => some w
  | FiberRun.returns => DoWork w i

namespace LoopWork

/-- The initialisation of `LoopWork` (lines 176-184): cursor and in-flight
count `0`, a main coroutine registered with `Register()`, and
`m_uRoutineCnt` fresh fibers. -/
def init (oPool : CoroutinePool) : Worker :=
  { oPool := oPool
    ctx :=
      { m_uCursor := 0
        m_uWorkCnt := 0
        m_pMainCoroutine := some (Coroutine.ctor.Register)
        m_vecCoroutine := List.replicate oPool.m_uRoutineCnt Coroutine.ctor }
    finished := []
    returned := false }

/-- One evaluation of the loop condition of `LoopWork` (line 187) followed,
when it holds, by one pass through the loop body (lines 189-212). `fuel`
bounds the call to `Pop`; `run` says how the fiber switched into comes back.
`none`: the pass does not complete (an index out of range, a null
dereference, or `Pop` out of fuel). -/
def iterate (w : Worker) (fuel : Nat) (run : FiberRun) : Option Worker :=
  if w.oPool.m_bStarted || decide (w.ctx.m_uWorkCnt > 0) || !w.oPool.m_queueJob.IsEmpty then
    match w.ctx.m_vecCoroutine[w.ctx.m_uCursor]? with
    | none => none
    | some pCurCoroutine =>
      if pCurCoroutine.HasTask then
        (switchInto w w.ctx.m_uCursor run).map
          (fun w1 => { w1 with ctx := MoveCursor w1.ctx })
      else
        match w.oPool.m_queueJob.Pop fuel with
        | none => none
        | some (none, q) =>
          if w.ctx.m_uWorkCnt > 0 then
            some { w with
              oPool := { w.oPool with m_queueJob := q }
              ctx := MoveCursor w.ctx }
          else
            some { w with oPool := { w.oPool with m_queueJob := q } }
        | some (some pTaskCtx, q) =>
          let w1 : Worker :=
            { w with
              oPool := { w.oPool with m_queueJob := q }
              ctx := { w.ctx with
                m_vecCoroutine :=
                  w.ctx.m_vecCoroutine.set w.ctx.m_uCursor
                    (pCurCoroutine.RegisterTask (some pTaskCtx))
                m_uWorkCnt := u32 (w.ctx.m_uWorkCnt + 1) } }
          (switchInto w1 w1.ctx.m_uCursor run).map
            (fun w2 => { w2 with ctx := MoveCursor w2.ctx })
  else
    some { w with returned := true }

end LoopWork

/-- Models `Run()`: the compare-and-swap of `m_bStarted` from `false` to `true`
and the value returned (the worker threads it then spawns are the `Worker`s). -/
def CoroutinePool.Run (p : CoroutinePool) : Bool × CoroutinePool :=
  if p.m_bStarted then (false, p) else (true, { p with m_bStarted := true })

/-- Models `Stop()`: the compare-and-swap of `m_bStarted` from `true` to
`false`, as the workers see it (it then notifies and joins them). -/
def CoroutinePool.Stop (p : CoroutinePool) : CoroutinePool :=
  if p.m_bStarted then { p with m_bStarted := false } else p

/-- Models `Submit(userFunc)`: a task descriptor with a new handle, numbered
`k`, is pushed on `m_queueJob`; the handle is returned, or `nullptr` when
`Push` fails. `none`: `Push` has not returned within the fuel. -/
def CoroutinePool.Submit (fuel : Nat) (p : CoroutinePool) (userFunc : UserFunc) (k : Nat) :
    Option (Option Nat × CoroutinePool) :=
  match p.m_queueJob.Push fuel (some { m_userFunc := userFunc, m_pFuture := some k }) with
  | none => none
  | some (true, q) => some (some k, { p with m_queueJob := q })
  | some (false, q) => some (none, { p with m_queueJob := q })

/-- What can happen next to a worker inside `LoopWork`: the worker itself
evaluates its loop condition and runs one pass of the body; some thread calls
`Submit`, `Run` or `Stop`; another worker of the pool calls `Pop` on the shared
queue; or, most generally, other threads leave the shared members `m_bStarted`
and `m_queueJob` with arbitrary new values (`others`, which also covers calls
on the queue that race with one another). -/
inductive WorkerEvent where
  | iterate (fuel : Nat) (run : FiberRun)
  | submit (fuel : Nat) (userFunc : UserFunc) (k : Nat)
  | run
  | stop
  | popElsewhere (fuel : Nat)
  | others (m_bStarted : Bool) (m_queueJob : ArraySyncQueue CoroutineTaskCtx)

/-- One step of a worker. The loop condition is evaluated in one step, on the
values that the shared members have at that moment. Once `LoopWork` has
returned the run of this worker is over: the state stays the one in which the
condition was found false. -/
def stepWorker (w : Worker) : WorkerEvent → Option Worker
  | WorkerEvent.iterate fuel run =>
    if w.returned then none else LoopWork.iterate w fuel run
  | WorkerEvent.submit fuel userFunc k =>
    if w.returned then none
    else (w.oPool.Submit fuel userFunc k).map (fun r => { w with oPool := r.2 })
  | WorkerEvent.run =>
    if w.returned then none else some { w with oPool := w.oPool.Run.2 }
  | WorkerEvent.stop =>
    if w.returned then none else some { w with oPool := w.oPool.Stop }
  | WorkerEvent.popElsewhere fuel =>
    if w.returned then none
    else (w.oPool.m_queueJob.Pop fuel).map
      (fun r => { w with oPool := { w.oPool with m_queueJob := r.2 } })
  | WorkerEvent.others b q =>
    if w.returned then none
    else some { w with oPool := { w.oPool with m_bStarted := b, m_queueJob := q } }

/-- A worker's run: `LoopWork` on `oPool` from its initialisation through the
given events. -/
def runWorker : Worker → List WorkerEvent → Option Worker
  | w, [] => some w
  | w, e :: es =>
    match stepWorker w e with
    | some w1 => runWorker w1 es
    | none => none

/-- What holds of a worker in every state of `LoopWork`. -/
structure WorkerInv (w : Worker) : Prop where
  len_lt : w.ctx.m_vecCoroutine.length < 4294967296
  cnt : w.ctx.m_uWorkCnt = w.ctx.m_vecCoroutine.countP Coroutine.HasTask
  main : w.ctx.m_pMainCoroutine
    = some { m_pTaskCtx := some { m_userFunc := UserFunc.empty, m_pFuture := none } }
  done : w.returned = true →
    w.oPool.m_bStarted = false ∧ w.ctx.m_uWorkCnt = 0 ∧ w.oPool.m_queueJob.IsEmpty = true

/-! ### A sample run of one worker -/

/-- A submitted task whose completion handle is number `7`. -/
def sampleTask : CoroutineTaskCtx := { m_userFunc := UserFunc.user 1, m_pFuture := some 7 }

/-- The pool built by `CoroutinePool(1, 2, 4)` after `Run` and one `Submit`:
one thread with two fibers and a queue of four cells holding one task. -/
def samplePool : CoroutinePool :=
  { m_bStarted := true
    m_uThreadCnt := 1
    m_uRoutineCnt := 2
    m_queueJob :=
      { m_vecQueue := [some sampleTask, none, none, none]
        m_uPushCursor := 1
        m_uPopCursor := 0
        m_uSleepUs := 100
        m_uRetryTimes := 3 } }

/-- The queue of `samplePool` once its task has been popped. -/
def sampleQueueDrained : ArraySyncQueue CoroutineTaskCtx :=
  { m_vecQueue := [none, none, none, none]
    m_uPushCursor := 1
    m_uPopCursor := 1
    m_uSleepUs := 100
    m_uRetryTimes := 3 }

/-- The worker's main coroutine, as `Register()` leaves it. -/
def sampleMain : Coroutine :=
  { m_pTaskCtx := some { m_userFunc := UserFunc.empty, m_pFuture := none } }

/-- The worker on `samplePool` after one pass of the loop in which the task is
bound to fiber 0 and the fiber yields. -/
def sampleBound : Worker :=
  { oPool := { samplePool with m_queueJob := sampleQueueDrained }
    ctx :=
      { m_vecCoroutine := [{ m_pTaskCtx := some sampleTask }, { m_pTaskCtx := none }]
        m_pMainCoroutine := some sampleMain
        m_uCursor := 1
        m_uWorkCnt := 1 }
    finished := []
    returned := false }

/-- The worker `sampleBound` after the pass over the idle fiber 1. -/
def sampleBoundNext : Worker :=
  { sampleBound with ctx := { sampleBound.ctx with m_uCursor := 0 } }

/-! ## The context switch (coroutine.h 86, 144-145; coroutine.cpp 56-124) -/

/-- The general registers that `Switch` reads or writes. -/
inductive Reg where
  | rax | rbx | rcx | rdx | rsi | rdi | rbp | rsp
  | r8 | r9 | r12 | r13 | r14 | r15
deriving DecidableEq

/-- The byte of index `i` (little-endian) of the value `v`. -/
def byteOf (v : Nat) : Nat → Nat
  | 0 => v % 256
  | i + 1 => byteOf (v / 256) i

/-- The 8-byte little-endian word at address `p` of a byte-addressed memory. -/
def load64 (m : Nat → Nat) (p : Nat) : Nat :=
  m p % 256 + 256 * (m (p + 1) % 256 + 256 * (m (p + 2) % 256 + 256 * (m (p + 3) % 256 +
    256 * (m (p + 4) % 256 + 256 * (m (p + 5) % 256 + 256 * (m (p + 6) % 256 +
      256 * (m (p + 7) % 256)))))))

/-- The memory after an 8-byte little-endian store of `v` at address `p`. -/
def store64 (m : Nat → Nat) (p v : Nat) : Nat → Nat :=
  fun q => if p ≤ q ∧ q < p + 8 then byteOf v (q - p) else m q

/-- The memory after `memset(p, c, n)`. -/
def memset (m : Nat → Nat) (p c n : Nat) : Nat → Nat :=
  fun q => if p ≤ q ∧ q < p + n then c % 256 else m q

/-- A register file and a byte-addressed memory. -/
structure Machine where
  reg : Reg → Nat
  mem : Nat → Nat

/-- The instructions that occur in the body of `Switch` (AT&T operand order). -/
inductive Instr where
  | movRR (src dst : Reg)
  | movRM (src : Reg) (off : Nat) (base : Reg)
  | movMR (off : Nat) (base : Reg) (dst : Reg)
  | xorRR (src dst : Reg)
deriving DecidableEq

namespace Machine

/-- The machine with register `r` set to `v`. -/
def setReg (s : Machine) (r : Reg) (v : Nat) : Machine :=
  { s with reg := fun x => if x = r then v else s.reg x }

/-- The effective address `off(%base)`. -/
def ea (s : Machine) (off : Nat) (base : Reg) : Nat := u64 (s.reg base + off)

/-- One instruction. -/
def exec1 (s : Machine) : Instr → Machine
  | Instr.movRR src dst => s.setReg dst (s.reg src)
  | Instr.movRM src off base => { s with mem := store64 s.mem (s.ea off base) (s.reg src) }
  | Instr.movMR off base dst => s.setReg dst (load64 s.mem (s.ea off base))
  | Instr.xorRR src dst => s.setReg dst (s.reg dst ^^^ s.reg src)

/-- A straight-line sequence of instructions. -/
def exec (s : Machine) (prog : List Instr) : Machine := prog.foldl exec1 s

end Machine

namespace Switch

/-- The first half of the body of `Switch` (lines 61-76): the registers of the
caller are stored in the frame of `pPrev`, to which `%rdi` points. -/
def save : List Instr :=
  [ Instr.movRR Reg.rsp Reg.rax,
    Instr.movRM Reg.rbp 104 Reg.rdi,
    Instr.movRM Reg.rax 96 Reg.rdi,
    Instr.movRM Reg.rbx 88 Reg.rdi,
    Instr.movRM Reg.rcx 80 Reg.rdi,
    Instr.movRM Reg.rdx 72 Reg.rdi,
    Instr.movMR 0 Reg.rax Reg.rax,
    Instr.movRM Reg.rax 64 Reg.rdi,
    Instr.movRM Reg.rsi 56 Reg.rdi,
    Instr.movRM Reg.rdi 48 Reg.rdi,
    Instr.movRM Reg.r8 40 Reg.rdi,
    Instr.movRM Reg.r9 32 Reg.rdi,
    Instr.movRM Reg.r12 24 Reg.rdi,
    Instr.movRM Reg.r13 16 Reg.rdi,
    Instr.movRM Reg.r14 8 Reg.rdi,
    Instr.movRM Reg.r15 0 Reg.rdi ]

/-- The second half of the body of `Switch` (lines 78-93): the registers are
loaded from the frame of `pNext`, to which `%rsi` points, and the saved `%rax`
is written to the top of the new stack. -/
def load : List Instr :=
  [ Instr.movMR 0 Reg.rsi Reg.r15,
    Instr.movMR 8 Reg.rsi Reg.r14,
    Instr.movMR 16 Reg.rsi Reg.r13,
    Instr.movMR 24 Reg.rsi Reg.r12,
    Instr.movMR 32 Reg.rsi Reg.r9,
    Instr.movMR 40 Reg.rsi Reg.r8,
    Instr.movMR 48 Reg.rsi Reg.rdi,
    Instr.movMR 64 Reg.rsi Reg.rax,
    Instr.movMR 72 Reg.rsi Reg.rdx,
    Instr.movMR 80 Reg.rsi Reg.rcx,
    Instr.movMR 88 Reg.rsi Reg.rbx,
    Instr.movMR 96 Reg.rsi Reg.rsp,
    Instr.movMR 104 Reg.rsi Reg.rbp,
    Instr.movMR 56 Reg.rsi Reg.rsi,
    Instr.movRM Reg.rax 0 Reg.rsp,
    Instr.xorRR Reg.rax Reg.rax ]

end Switch

/-- The body of `Switch(pPrev, pNext)`, entered with `%rdi = pPrev` and
`%rsi = pNext`. -/
def Switch (s : Machine) : Machine := s.exec (Switch.save ++ Switch.load)

/-- Models `CO_STACK_SIZE`. -/
def CO_STACK_SIZE : Nat := 4096 + 65535

/-- The size of `m_pRegister`, the first member of `Coroutine`: 14 pointers. -/
def FRAME_SIZE : Nat := 14 * 8

/-- The address of `m_pRegister[i]` in the coroutine at address `pThis`. -/
def regSlot (pThis i : Nat) : Nat := pThis + 8 * i

/-- The address of `m_pStack`, the member that follows `m_pRegister`. -/
def stackBegin (pThis : Nat) : Nat := pThis + FRAME_SIZE

/-- Models `std::end(m_pStack)`. -/
def stackEnd (pThis : Nat) : Nat := stackBegin pThis + CO_STACK_SIZE

/-- Models `GetRsp()`: `std::end(m_pStack) - sizeof(void*)`, and-ed with `~0xF`
(the `int` constant `-16`, sign-extended to `size_t`). -/
def GetRsp (pThis : Nat) : Nat :=
  Nat.land (u64 (stackEnd pThis + 18446744073709551616 - 8)) 18446744073709551600

/-- Models `SaveReg()` in the coroutine at address `pThis`, as a change of memory;
`DoWork` is the address of the function `Coroutine::DoWork`. -/
def SaveReg (m : Nat → Nat) (pThis DoWork : Nat) : Nat → Nat :=
  let pStack := GetRsp pThis
  let m1 := memset m pThis 0 FRAME_SIZE
  let m2 := store64 m1 pStack DoWork
  let m3 := store64 m2 (regSlot pThis 12) pStack
  let m4 := store64 m3 (regSlot pThis 8) (load64 m3 pStack)
  store64 m4 (regSlot pThis 6) pThis

/-- A call `Switch(1000, 2000)` with the stack at `5000`, the return address
`77` on top of it, and distinct values in the callee-saved registers. -/
def sampleCall : Machine :=
  { reg := fun r =>
      match r with
      | Reg.rdi => 1000
      | Reg.rsi => 2000
      | Reg.rsp => 5000
      | Reg.rbx => 11
      | Reg.rbp => 12
      | Reg.r12 => 13
      | Reg.r13 => 14
      | Reg.r14 => 15
      | Reg.r15 => 16
      | _ => 0
    mem := fun q => if q = 5000 then 77 else 0 }

/-- A later call `Switch(3000, 1000)` on the memory that `sampleCall` left. -/
def sampleResume : Machine :=
  { reg := fun r =>
      match r with
      | Reg.rdi => 3000
      | Reg.rsi => 1000
      | _ => 0
    mem := (Switch sampleCall).mem }

/-- The registers of a main coroutine at address `1000` about to call
`Switch(1000, 4096)`. -/
def sampleMainRegs : Reg → Nat := fun r =>
  match r with
  | Reg.rdi => 1000
  | Reg.rsi => 4096
  | Reg.rsp => 200000
  | _ => 5

/-! ## Lists used as arrays -/

theorem getD_set_self {α : Type} (l : List α) (i : Nat) (v d : α) (h : i < l.length) :
    (l.set i v).getD i d = v := by
  induction l generalizing i with
  | nil => simp at h
  | cons a t ih =>
    cases i with
    | zero => rfl
    | succ j => exact ih j (by simpa using h)

theorem getD_set_ne {α : Type} (l : List α) (i j : Nat) (v d : α) (h : i ≠ j) :
    (l.set i v).getD j d = l.getD j d := by
  induction l generalizing i j with
  | nil => rfl
  | cons a t ih =>
    cases i with
    | zero =>
      cases j with
      | zero => exact absurd rfl h
      | succ k => rfl
    | succ i1 =>
      cases j with
      | zero => rfl
      | succ k => exact ih i1 k (fun e => h (by rw [e]))

theorem getD_replicate_none {α : Type} (n i : Nat) :
    (List.replicate n (none : Option α)).getD i none = none := by
  induction n generalizing i with
  | zero => rfl
  | succ k ih =>
    cases i with
    | zero => rfl
    | succ j => exact ih j

theorem countP_set_some {α : Type} (l : List (Option α)) (i : Nat) (v : α)
    (h : i < l.length) (hn : l.getD i none = none) :
    (l.set i (some v)).countP (fun c => c.isSome) = l.countP (fun c => c.isSome) + 1 := by
  induction l generalizing i with
  | nil => simp at h
  | cons a t ih =>
    cases i with
    | zero =>
      have ha : a = none := hn
      subst ha
      simp [List.countP_cons]
    | succ j =>
      have := ih j (by simpa using h) hn
      simp only [List.set_cons_succ, List.countP_cons, this]
      omega

theorem countP_set_none {α : Type} (l : List (Option α)) (i : Nat) (v : α)
    (hv : l.getD i none = some v) :
    (l.set i none).countP (fun c => c.isSome) + 1 = l.countP (fun c => c.isSome) := by
  induction l generalizing i with
  | nil => simp at hv
  | cons a t ih =>
    cases i with
    | zero =>
      have ha : a = some v := hv
      subst ha
      simp [List.countP_cons]
    | succ j =>
      have := ih j hv
      simp only [List.set_cons_succ, List.countP_cons]
      omega

theorem mod_of_wrap (c a : Nat) (h1 : c ≤ a) (h2 : a < 2 * c) : a % c = a - c := by
  have h3 : a = (a - c) + c := by omega
  have h4 : a - c < c := by omega
  calc a % c = ((a - c) + c) % c := by rw [← h3]
    _ = (a - c) % c := Nat.add_mod_right _ _
    _ = a - c := Nat.mod_eq_of_lt h4

/-! ## The representation invariant of the queue -/

namespace ArraySyncQueue

variable {T : Type}

theorem Rep.push_lt {q : ArraySyncQueue T} {l : List T} (h : Rep q l) :
    q.m_uPushCursor < q.m_vecQueue.length := by
  rw [h.push_eq]
  exact Nat.mod_lt _ (by have := h.size_pos; omega)

theorem rep_ctor (uCapacity uSleepUs uRetryTimes : Nat) (h : uCapacity < 4294967296) :
    Rep (ctor uCapacity uSleepUs uRetryTimes : ArraySyncQueue T) [] := by
  refine ⟨?_, ?_, ?_, ?_, ?_, ?_, ?_⟩
  · simp [ctor]
  · simp only [ctor, List.length_replicate]; omega
  · simp [ctor]
  · simp [ctor]
  · simp [ctor]
  · intro i _
    simp only [ctor]
    rw [getD_replicate_none]
    rfl
  · simp [occupied, ctor, List.countP_replicate]

theorem Rep.fullAt_iff {q : ArraySyncQueue T} {l : List T} (h : Rep q l) :
    q.fullAt q.m_uPushCursor = true ↔ l.length + 1 = q.m_vecQueue.length := by
  have h1 := h.size_pos
  have h2 := h.size_lt
  have h3 := h.pop_lt
  have h4 := h.len_lt
  have h5 := h.push_eq
  simp only [fullAt, Bool.or_eq_true, Bool.and_eq_true, beq_iff_eq, sizeMinusOne, u32, u64]
  by_cases hc : q.m_uPopCursor + l.length < q.m_vecQueue.length
  · rw [Nat.mod_eq_of_lt hc] at h5
    omega
  · rw [mod_of_wrap _ _ (by omega) (by omega)] at h5
    omega

theorem Rep.full_iff_congr {q : ArraySyncQueue T} {l : List T} (h : Rep q l) :
    q.fullAt q.m_uPushCursor = true ↔
      (q.m_uPushCursor + 1) % q.m_vecQueue.length = q.m_uPopCursor % q.m_vecQueue.length := by
  rw [h.fullAt_iff]
  have h1 := h.size_pos
  have h3 := h.pop_lt
  have h4 := h.len_lt
  have h5 := h.push_eq
  rw [Nat.mod_eq_of_lt h3]
  by_cases hc : q.m_uPopCursor + l.length < q.m_vecQueue.length
  · rw [Nat.mod_eq_of_lt hc] at h5
    by_cases hd : q.m_uPushCursor + 1 < q.m_vecQueue.length
    · rw [Nat.mod_eq_of_lt hd]; omega
    · rw [mod_of_wrap _ _ (by omega) (by omega)]; omega
  · rw [mod_of_wrap _ _ (by omega) (by omega)] at h5
    rw [Nat.mod_eq_of_lt (by omega)]
    omega

theorem GetNextCursor_eq (q : ArraySyncQueue T) (uCursor : Nat)
    (h1 : 1 ≤ q.m_vecQueue.length) (h2 : q.m_vecQueue.length < 4294967296)
    (h3 : uCursor < q.m_vecQueue.length) :
    q.GetNextCursor uCursor = if uCursor + 1 = q.m_vecQueue.length then 0 else uCursor + 1 := by
  unfold GetNextCursor sizeMinusOne u32 u64
  split <;> split <;> omega

theorem Rep.next_push {q : ArraySyncQueue T} {l : List T} (h : Rep q l) :
    q.GetNextCursor q.m_uPushCursor =
      (q.m_uPopCursor + (l.length + 1)) % q.m_vecQueue.length := by
  have h1 := h.size_pos
  have h3 := h.pop_lt
  have h4 := h.len_lt
  have h5 := h.push_eq
  rw [GetNextCursor_eq q _ h1 h.size_lt h.push_lt]
  by_cases hc : q.m_uPopCursor + l.length < q.m_vecQueue.length
  · rw [Nat.mod_eq_of_lt hc] at h5
    by_cases hd : q.m_uPopCursor + (l.length + 1) < q.m_vecQueue.length
    · rw [Nat.mod_eq_of_lt hd]
      split <;> omega
    · rw [mod_of_wrap _ _ (by omega) (by omega)]
      split <;> omega
  · rw [mod_of_wrap _ _ (by omega) (by omega)] at h5
    rw [mod_of_wrap _ _ (by omega) (by omega)]
    split <;> omega

theorem Rep.next_pop {q : ArraySyncQueue T} {l : List T} (h : Rep q l) :
    q.GetNextCursor q.m_uPopCursor = (q.m_uPopCursor + 1) % q.m_vecQueue.length := by
  have h1 := h.size_pos
  have h3 := h.pop_lt
  rw [GetNextCursor_eq q _ h1 h.size_lt h3]
  by_cases hd : q.m_uPopCursor + 1 < q.m_vecQueue.length
  · rw [Nat.mod_eq_of_lt hd]
    split <;> omega
  · rw [mod_of_wrap _ _ (by omega) (by omega)]
    split <;> omega

theorem mod_add_inj (c p i j : Nat) (hp : p < c) (hi : i < c) (hj : j < c)
    (h : (p + i) % c = (p + j) % c) : i = j := by
  by_cases h1 : p + i < c <;> by_cases h2 : p + j < c
  · rw [Nat.mod_eq_of_lt h1, Nat.mod_eq_of_lt h2] at h; omega
  · rw [Nat.mod_eq_of_lt h1, mod_of_wrap _ _ (by omega) (by omega)] at h; omega
  · rw [mod_of_wrap _ _ (by omega) (by omega), Nat.mod_eq_of_lt h2] at h; omega
  · rw [mod_of_wrap _ _ (by omega) (by omega), mod_of_wrap _ _ (by omega) (by omega)] at h
    omega

theorem mod_add_succ (c p i : Nat) :
    ((p + 1) % c + i) % c = (p + (i + 1)) % c := by
  rw [Nat.add_mod, Nat.mod_mod, ← Nat.add_mod]
  congr 1
  omega

/-- The queue after a successful `Push(pObj)`. -/
theorem Rep.push_ok {q : ArraySyncQueue T} {l : List T} (h : Rep q l) (p : T) (n : Nat)
    (hnf : l.length + 1 ≠ q.m_vecQueue.length) :
    pushLoop p (n + 1) 0 q =
        some (true, { q with
          m_vecQueue := q.m_vecQueue.set q.m_uPushCursor (some p)
          m_uPushCursor := q.GetNextCursor q.m_uPushCursor }) ∧
      Rep { q with
          m_vecQueue := q.m_vecQueue.set q.m_uPushCursor (some p)
          m_uPushCursor := q.GetNextCursor q.m_uPushCursor } (l ++ [p]) := by
  have hfull : q.fullAt q.m_uPushCursor = false := by
    cases hb : q.fullAt q.m_uPushCursor with
    | false => rfl
    | true => exact absurd (h.fullAt_iff.mp hb) hnf
  have hcell : q.m_vecQueue.getD q.m_uPushCursor none = none := by
    have := h.cell l.length h.len_lt
    rw [← h.push_eq] at this
    rw [this]
    exact List.getElem?_eq_none (Nat.le_refl _)
  constructor
  · simp [pushLoop, hfull]
    rw [← List.getD_eq_getElem?_getD, hcell]
  · have h1 := h.size_pos
    have h3 := h.pop_lt
    have h4 := h.len_lt
    refine ⟨?_, ?_, ?_, ?_, ?_, ?_, ?_⟩
    · simpa using h1
    · simpa using h.size_lt
    · simpa using h3
    · simp only [List.length_set, List.length_append, List.length_singleton]; omega
    · simp only [List.length_set, List.length_append, List.length_singleton]
      exact h.next_push
    · intro i hi
      simp only [List.length_set] at hi ⊢
      by_cases hil : i = l.length
      · subst hil
        rw [← h.push_eq, getD_set_self _ _ _ _ h.push_lt]
        simp
      · have hne : q.m_uPushCursor ≠ (q.m_uPopCursor + i) % q.m_vecQueue.length := by
          intro e
          rw [h.push_eq] at e
          exact hil (mod_add_inj _ _ _ _ h3 h4 hi e).symm
        rw [getD_set_ne _ _ _ _ _ hne, h.cell i hi]
        by_cases hlt : i < l.length
        · rw [List.getElem?_append_left hlt]
        · rw [List.getElem?_eq_none (by omega), List.getElem?_eq_none (by simp; omega)]
    · simp only [occupied, List.length_append, List.length_singleton]
      rw [countP_set_some _ _ _ h.push_lt hcell]
      have := h.occ
      simp only [occupied] at this
      omega

/-- A `Push` on a full queue returns `false` and changes nothing. -/
theorem Rep.push_full {q : ArraySyncQueue T} {l : List T} (h : Rep q l) (p : T) (n : Nat)
    (hf : l.length + 1 = q.m_vecQueue.length) :
    pushLoop p (n + 1) 0 q = some (false, q) := by
  have hfull : q.fullAt q.m_uPushCursor = true := h.fullAt_iff.mpr hf
  simp [pushLoop, hfull]

/-- A `Pop` on an empty queue returns `nullptr` and changes nothing. -/
theorem Rep.pop_empty {q : ArraySyncQueue T} (h : Rep q []) (n : Nat) :
    popLoop (n + 1) 0 q = some (none, q) := by
  have h5 := h.push_eq
  simp only [List.length_nil, Nat.add_zero, Nat.mod_eq_of_lt h.pop_lt] at h5
  simp [popLoop, h5]

/-- The queue after a successful `Pop()`. -/
theorem Rep.pop_ok {q : ArraySyncQueue T} {a : T} {t : List T} (h : Rep q (a :: t)) (n : Nat) :
    popLoop (n + 1) 0 q =
        some (some a, { q with
          m_vecQueue := q.m_vecQueue.set q.m_uPopCursor none
          m_uPopCursor := q.GetNextCursor q.m_uPopCursor }) ∧
      Rep { q with
          m_vecQueue := q.m_vecQueue.set q.m_uPopCursor none
          m_uPopCursor := q.GetNextCursor q.m_uPopCursor } t := by
  have h1 := h.size_pos
  have h3 := h.pop_lt
  have h4 := h.len_lt
  simp only [List.length_cons] at h4
  have hne : q.m_uPopCursor ≠ q.m_uPushCursor := by
    intro e
    have h5 := h.push_eq
    rw [← e] at h5
    have h6 : (q.m_uPopCursor + 0) % q.m_vecQueue.length
        = (q.m_uPopCursor + (a :: t).length) % q.m_vecQueue.length := by
      rw [Nat.add_zero, Nat.mod_eq_of_lt h3]; exact h5
    have := mod_add_inj _ _ _ _ h3 (by omega) h.len_lt h6
    simp at this
  have hcell : q.m_vecQueue.getD q.m_uPopCursor none = some a := by
    have := h.cell 0 (by omega)
    rw [Nat.add_zero, Nat.mod_eq_of_lt h3] at this
    rw [this]; simp
  constructor
  · simp [popLoop, hne]
    rw [← List.getD_eq_getElem?_getD, hcell]
  · refine ⟨?_, ?_, ?_, ?_, ?_, ?_, ?_⟩
    · simpa using h1
    · simpa using h.size_lt
    · simp only [List.length_set]
      rw [h.next_pop]
      exact Nat.mod_lt _ (by omega)
    · simp only [List.length_set]; omega
    · simp only [List.length_set]
      rw [h.next_pop, mod_add_succ, h.push_eq]
      simp only [List.length_cons]
    · intro i hi
      simp only [List.length_set] at hi ⊢
      rw [h.next_pop, mod_add_succ]
      by_cases hlast : i + 1 = q.m_vecQueue.length
      · have e : (q.m_uPopCursor + (i + 1)) % q.m_vecQueue.length = q.m_uPopCursor := by
          rw [hlast, Nat.add_mod_right, Nat.mod_eq_of_lt h3]
        rw [e, getD_set_self _ _ _ _ h3, List.getElem?_eq_none (by omega)]
      · have hne2 : q.m_uPopCursor ≠ (q.m_uPopCursor + (i + 1)) % q.m_vecQueue.length := by
          intro e
          have e2 : (q.m_uPopCursor + 0) % q.m_vecQueue.length
              = (q.m_uPopCursor + (i + 1)) % q.m_vecQueue.length := by
            rw [Nat.add_zero, Nat.mod_eq_of_lt h3]; exact e
          have := mod_add_inj _ _ _ _ h3 (by omega) (by omega) e2
          omega
        rw [getD_set_ne _ _ _ _ _ hne2, h.cell (i + 1) (by omega)]
        simp
    · have h7 := countP_set_none _ _ _ hcell
      have h8 := h.occ
      simp only [occupied, List.length_cons] at h8 ⊢
      omega

end ArraySyncQueue

/-! ## Sequences of calls by one thread -/

theorem queueGood_ctor {T : Type} (uCapacity uSleepUs uRetryTimes : Nat)
    (h : uCapacity < 4294967296) :
    QueueGood uCapacity
      ((ArraySyncQueue.ctor uCapacity uSleepUs uRetryTimes : ArraySyncQueue T), ⟨[], []⟩) :=
  ⟨[], ArraySyncQueue.rep_ctor _ _ _ h, rfl, by simp [ArraySyncQueue.ctor]⟩

theorem queueGood_call {T : Type} (uCapacity : Nat) (st : ArraySyncQueue T × QueueLog T)
    (hg : QueueGood uCapacity st) (n : Nat) (c : QueueCall T) :
    ∃ st1, callQueue (n + 1) st c = some st1 ∧ QueueGood uCapacity st1 := by
  obtain ⟨l, hrep, hlog, hlen⟩ := hg
  cases c with
  | push pObj =>
    cases pObj with
    | none => exact ⟨(st.1, st.2), rfl, l, hrep, hlog, hlen⟩
    | some p =>
      by_cases hf : l.length + 1 = st.1.m_vecQueue.length
      · refine ⟨(st.1, st.2), ?_, l, hrep, hlog, hlen⟩
        simp [callQueue, ArraySyncQueue.Push, hrep.push_full p n hf]
      · obtain ⟨h1, h2⟩ := hrep.push_ok p n hf
        refine ⟨(_, { st.2 with pushed := st.2.pushed ++ [p] }), ?_, l ++ [p], h2, ?_, ?_⟩
        · simp [callQueue, ArraySyncQueue.Push, h1]
        · simp [hlog]
        · simpa using hlen
  | pop =>
    cases l with
    | nil =>
      refine ⟨(st.1, st.2), ?_, [], hrep, hlog, hlen⟩
      simp [callQueue, ArraySyncQueue.Pop, hrep.pop_empty n]
    | cons a t =>
      obtain ⟨h1, h2⟩ := hrep.pop_ok n
      refine ⟨(_, { st.2 with popped := st.2.popped ++ [a] }), ?_, t, h2, ?_, ?_⟩
      · simp [callQueue, ArraySyncQueue.Pop, h1]
      · simp [hlog]
      · simpa using hlen

theorem queueGood_run {T : Type} (uCapacity : Nat) (calls : List (QueueCall T))
    (st : ArraySyncQueue T × QueueLog T) (hg : QueueGood uCapacity st) (n : Nat) :
    ∃ st1, runQueue (n + 1) st calls = some st1 ∧ QueueGood uCapacity st1 := by
  induction calls generalizing st with
  | nil => exact ⟨st, rfl, hg⟩
  | cons c cs ih =>
    obtain ⟨st1, h1, hg1⟩ := queueGood_call uCapacity st hg n c
    obtain ⟨st2, h2, hg2⟩ := ih st1 hg1
    exact ⟨st2, by simp [runQueue, h1, h2], hg2⟩

/-! ## Push under contention -/

theorem pushLoopContended_bounded (m_uRetryTimes size : Nat) (view : Nat → PushView)
    (hR : m_uRetryTimes < 4294967295) (d : Nat) :
    ∀ (k u extra : Nat), u + d = m_uRetryTimes + 1 →
      ∃ out, pushLoopContended m_uRetryTimes size view (d + 1 + extra) k u u = some out ∧
        out.casAttempts ≤ m_uRetryTimes + 1 ∧
        ((∀ j, (view j).casOk = false) → out.result = false) := by
  induction d with
  | zero =>
    intro k u extra hu
    refine ⟨{ result := false, casAttempts := u }, ?_, by simp; omega, fun _ => rfl⟩
    have : ¬ u ≤ m_uRetryTimes := by omega
    rw [show 0 + 1 + extra = extra + 1 by omega]
    simp [pushLoopContended, this]
  | succ d ih =>
    intro k u extra hu
    have hle : u ≤ m_uRetryTimes := by omega
    have hw : u32 (u + 1) = u + 1 := by unfold u32; omega
    obtain ⟨out, h1, h2, h3⟩ := ih (k + 1) (u + 1) extra (by omega)
    rw [show d + 1 + 1 + extra = (d + 1 + extra) + 1 by omega]
    simp only [pushLoopContended, hle, if_true]
    split
    · exact ⟨_, rfl, by simp; omega, fun _ => rfl⟩
    · split
      · rename_i hcas
        refine ⟨_, rfl, by simp; omega, fun hall => ?_⟩
        rw [hall k] at hcas
        exact absurd hcas (by simp)
      · rw [hw]
        exact ⟨out, h1, h2, h3⟩

theorem pushLoopContended_forever (fuel : Nat) :
    ∀ (k u attempts : Nat), u < 4294967296 →
      pushLoopContended 4294967295 2
        (fun _ => { uPushCursor := 0, uPopCursor := 0, casOk := false })
        fuel k u attempts = none := by
  induction fuel with
  | zero => intro k u attempts _; rfl
  | succ n ih =>
    intro k u attempts hu
    have hle : u ≤ 4294967295 := by omega
    simp only [pushLoopContended, hle, if_true]
    rw [if_neg (by decide), if_neg (by decide)]
    exact ih _ _ _ (by unfold u32; omega)

/-! ## The queue's contract -/

/-- C1: in single-threaded use, starting from a freshly constructed queue of
any capacity, every sequence of `Push` and `Pop` calls runs to completion, and
the non-null values returned by `Pop` are, in order, an initial segment of the
items whose `Push` returned `true`. -/
theorem C1_pop_order_is_push_order {T : Type} (uCapacity uSleepUs uRetryTimes : Nat)
    (hcap : uCapacity < 4294967296) (calls : List (QueueCall T)) (n : Nat) :
    ∃ q log,
      runQueue (n + 1) (ArraySyncQueue.ctor uCapacity uSleepUs uRetryTimes, ⟨[], []⟩) calls
        = some (q, log) ∧
      log.popped <+: log.pushed := by
  obtain ⟨st, hrun, l, _, hlog, _⟩ :=
    queueGood_run uCapacity calls _ (queueGood_ctor uCapacity uSleepUs uRetryTimes hcap) n
  exact ⟨st.1, st.2, hrun, l, hlog.symm⟩

theorem C1_pop_order_is_push_order_witness :
    (3 : Nat) < 4294967296 ∧
    ∃ q log,
      runQueue (0 + 1) ((ArraySyncQueue.ctor 3 100 3 : ArraySyncQueue Nat), ⟨[], []⟩)
        [.push (some 5), .push (some 6), .push (some 7), .pop, .push none, .pop, .pop]
        = some (q, log) ∧
      log.popped <+: log.pushed :=
  ⟨by decide, C1_pop_order_is_push_order 3 100 3 (by decide) _ 0⟩

/-- C2: for every requested capacity and every sequence of `Push` and `Pop`
calls on the freshly constructed queue, the queue has `c = max(uCapacity, 1)`
cells and at most `c - 1` of them are non-empty in the state reached. -/
theorem C2_at_most_capacity_minus_one {T : Type} (uCapacity uSleepUs uRetryTimes : Nat)
    (hcap : uCapacity < 4294967296) (calls : List (QueueCall T)) (n : Nat) :
    ∃ q log,
      runQueue (n + 1) (ArraySyncQueue.ctor uCapacity uSleepUs uRetryTimes, ⟨[], []⟩) calls
        = some (q, log) ∧
      q.m_vecQueue.length = max uCapacity 1 ∧
      q.occupied ≤ max uCapacity 1 - 1 := by
  obtain ⟨st, hrun, l, hrep, _, hlen⟩ :=
    queueGood_run uCapacity calls _ (queueGood_ctor uCapacity uSleepUs uRetryTimes hcap) n
  refine ⟨st.1, st.2, hrun, hlen, ?_⟩
  have h1 := hrep.occ
  have h2 := hrep.len_lt
  omega

theorem C2_at_most_capacity_minus_one_witness :
    (2 : Nat) < 4294967296 ∧
    ∃ q log,
      runQueue (0 + 1) ((ArraySyncQueue.ctor 2 100 3 : ArraySyncQueue Nat), ⟨[], []⟩)
        [.push (some 5), .push (some 6), .pop, .push (some 7), .push (some 8)]
        = some (q, log) ∧
      q.m_vecQueue.length = max 2 1 ∧
      q.occupied ≤ max 2 1 - 1 :=
  ⟨by decide, C2_at_most_capacity_minus_one 2 100 3 (by decide) _ 0⟩

/-- C3: in every queue state reached by uncontended calls, both cursors are
32-bit values below the capacity; `Push(item)` returns `false` and leaves the
queue unchanged when `item` is null or `push + 1` is congruent to `pop` modulo
the capacity; otherwise it stores `item` in `cell[push]`, sets `push` to
`push == capacity - 1 ? 0 : push + 1`, leaves `pop` unchanged and returns
`true`. -/
theorem C3_push_contract {T : Type} (uCapacity uSleepUs uRetryTimes : Nat)
    (hcap : uCapacity < 4294967296) (calls : List (QueueCall T)) (n : Nat) :
    ∃ q log,
      runQueue (n + 1) (ArraySyncQueue.ctor uCapacity uSleepUs uRetryTimes, ⟨[], []⟩) calls
        = some (q, log) ∧
      q.m_uPushCursor < q.m_vecQueue.length ∧ q.m_uPopCursor < q.m_vecQueue.length ∧
      q.m_vecQueue.length < 4294967296 ∧
      ∀ (fuel : Nat) (pObj : Option T),
        ((pObj = none ∨
            (q.m_uPushCursor + 1) % q.m_vecQueue.length
              = q.m_uPopCursor % q.m_vecQueue.length) →
          ArraySyncQueue.Push (fuel + 1) q pObj = some (false, q)) ∧
        (pObj ≠ none →
          (q.m_uPushCursor + 1) % q.m_vecQueue.length
              ≠ q.m_uPopCursor % q.m_vecQueue.length →
          ArraySyncQueue.Push (fuel + 1) q pObj =
            some (true, { q with
              m_vecQueue := q.m_vecQueue.set q.m_uPushCursor pObj
              m_uPushCursor :=
                if q.m_uPushCursor = q.m_vecQueue.length - 1 then 0
                else q.m_uPushCursor + 1 })) := by
  obtain ⟨st, hrun, l, hrep, _, _⟩ :=
    queueGood_run uCapacity calls _ (queueGood_ctor uCapacity uSleepUs uRetryTimes hcap) n
  refine ⟨st.1, st.2, hrun, hrep.push_lt, hrep.pop_lt, hrep.size_lt, ?_⟩
  intro fuel pObj
  constructor
  · intro h
    cases pObj with
    | none => rfl
    | some p =>
      have hc := h.resolve_left (by simp)
      exact hrep.push_full p fuel (hrep.fullAt_iff.mp (hrep.full_iff_congr.mpr hc))
  · intro hnn hnc
    cases pObj with
    | none => exact absurd rfl hnn
    | some p =>
      have hnf : l.length + 1 ≠ st.1.m_vecQueue.length := fun e =>
        hnc (hrep.full_iff_congr.mp (hrep.fullAt_iff.mpr e))
      have h1 := (hrep.push_ok p fuel hnf).1
      have h2 := ArraySyncQueue.GetNextCursor_eq st.1 _ hrep.size_pos hrep.size_lt hrep.push_lt
      have h3 := hrep.size_pos
      have h4 : (if st.1.m_uPushCursor + 1 = st.1.m_vecQueue.length then 0
            else st.1.m_uPushCursor + 1)
          = (if st.1.m_uPushCursor = st.1.m_vecQueue.length - 1 then 0
            else st.1.m_uPushCursor + 1) := by
        split <;> split <;> omega
      simp only [ArraySyncQueue.Push, h1, h2, h4]

theorem C3_push_contract_witness :
    (3 : Nat) < 4294967296 ∧
    ∃ q log,
      runQueue (0 + 1) ((ArraySyncQueue.ctor 3 100 3 : ArraySyncQueue Nat), ⟨[], []⟩)
        [.push (some 5), .pop, .push (some 6)] = some (q, log) ∧
      q.m_uPushCursor < q.m_vecQueue.length ∧ q.m_uPopCursor < q.m_vecQueue.length ∧
      q.m_vecQueue.length < 4294967296 ∧
      ∀ (fuel : Nat) (pObj : Option Nat),
        ((pObj = none ∨
            (q.m_uPushCursor + 1) % q.m_vecQueue.length
              = q.m_uPopCursor % q.m_vecQueue.length) →
          ArraySyncQueue.Push (fuel + 1) q pObj = some (false, q)) ∧
        (pObj ≠ none →
          (q.m_uPushCursor + 1) % q.m_vecQueue.length
              ≠ q.m_uPopCursor % q.m_vecQueue.length →
          ArraySyncQueue.Push (fuel + 1) q pObj =
            some (true, { q with
              m_vecQueue := q.m_vecQueue.set q.m_uPushCursor pObj
              m_uPushCursor :=
                if q.m_uPushCursor = q.m_vecQueue.length - 1 then 0
                else q.m_uPushCursor + 1 })) :=
  ⟨by decide, C3_push_contract 3 100 3 (by decide) _ 0⟩

/-- C10 (as amended): for every configured `retryTimes` below `2^32 - 1`, every
non-null item and every sequence of cursor values and compare-and-swap
outcomes seen by the call, `Push` returns within `retryTimes + 2` evaluations
of its loop condition, after at most `retryTimes + 1` compare-and-swap
attempts, and returns `false` if all of them fail. -/
theorem C10_push_attempts_bounded (m_uRetryTimes size : Nat) (view : Nat → PushView)
    (hR : m_uRetryTimes < 4294967295) (extra : Nat) :
    ∃ out, PushContended m_uRetryTimes size view (m_uRetryTimes + 2 + extra) = some out ∧
      out.casAttempts ≤ m_uRetryTimes + 1 ∧
      ((∀ k, (view k).casOk = false) → out.result = false) := by
  have := pushLoopContended_bounded m_uRetryTimes size view hR (m_uRetryTimes + 1) 0 0 extra
    (by omega)
  simpa [PushContended] using this

theorem C10_push_attempts_bounded_witness :
    (3 : Nat) < 4294967295 ∧
    ∃ out, PushContended 3 8 (fun k => { uPushCursor := 2, uPopCursor := 0, casOk := k == 2 })
        (3 + 2 + 0) = some out ∧
      out.casAttempts ≤ 3 + 1 ∧
      ((∀ k : Nat, ({ uPushCursor := 2, uPopCursor := 0, casOk := k == 2 } : PushView).casOk
          = false) → out.result = false) :=
  ⟨by decide, C10_push_attempts_bounded 3 8
    (fun k => { uPushCursor := 2, uPopCursor := 0, casOk := k == 2 }) (by decide) 0⟩

/-- C10 (as stated) fails for `retryTimes = 2^32 - 1`, the value the destructor
assigns: when every compare-and-swap fails, the retry counter wraps around
without ever exceeding `m_uRetryTimes`, and `Push` never returns. -/
theorem C10_push_retries_forever :
    ¬ ∃ fuel out,
      PushContended 4294967295 2
        (fun _ => { uPushCursor := 0, uPopCursor := 0, casOk := false }) fuel = some out := by
  rintro ⟨fuel, out, h⟩
  rw [PushContended, pushLoopContended_forever fuel 0 0 0 (by decide)] at h
  exact absurd h (by simp)

/-! ## Future -/

/-- C4: on a handle on which `SetFinished` was never called, a `Get` whose
`wait_for` wakes up spuriously (status `no_timeout`, no notification) returns
`true` although `m_bFinished` is still `false` when it returns. -/
theorem C4_get_true_without_finish :
    Future.Get Future.ctor 1000 { setFinishedCalled := false, status := cv_status.no_timeout }
      = (true, { m_bFinished := false }) := by
  rfl

/-- When the wait is never spurious (it reports `no_timeout` only after a
`SetFinished`), a `Get` that returns `true` returns with `m_bFinished` set. -/
theorem Get_true_of_notified (f : Future) (uTimeoutMs : Nat) (w : WaitOutcome)
    (hw : w.status = cv_status.no_timeout → w.setFinishedCalled = true)
    (hg : (f.Get uTimeoutMs w).1 = true) : (f.Get uTimeoutMs w).2.m_bFinished = true := by
  unfold Future.Get at hg ⊢
  split
  · rename_i hf
    exact hf
  · rename_i hf
    rw [if_neg hf] at hg
    have hs : w.status = cv_status.no_timeout := by simpa using hg
    simp [hw hs, Future.SetFinished]

/-! ## The worker loop -/

theorem countP_set_eq {α : Type} (p : α → Bool) (l : List α) (i : Nat) (c v : α)
    (h : l[i]? = some c) :
    (l.set i v).countP p + (if p c then 1 else 0) = l.countP p + (if p v then 1 else 0) := by
  induction l generalizing i with
  | nil => simp at h
  | cons a t ih =>
    cases i with
    | zero =>
      simp only [List.getElem?_cons_zero, Option.some.injEq] at h
      subst h
      simp only [List.set_cons_zero, List.countP_cons]
      omega
    | succ j =>
      simp only [List.getElem?_cons_succ] at h
      have := ih j h
      simp only [List.set_cons_succ, List.countP_cons]
      omega

theorem workerInv_init (oPool : CoroutinePool) (h : oPool.m_uRoutineCnt < 4294967296) :
    WorkerInv (LoopWork.init oPool) := by
  refine ⟨?_, ?_, rfl, ?_⟩
  · simpa [LoopWork.init] using h
  · simp [LoopWork.init, List.countP_replicate, Coroutine.HasTask, Coroutine.ctor]
  · intro hr
    simp [LoopWork.init] at hr

theorem workerInv_moveCursor (w : Worker) (h : WorkerInv w) :
    WorkerInv { w with ctx := MoveCursor w.ctx } :=
  ⟨h.len_lt, h.cnt, h.main, h.done⟩

theorem workerInv_DoWork (w w1 : Worker) (i : Nat) (h : WorkerInv w) (hr : w.returned = false)
    (hd : DoWork w i = some w1) : WorkerInv w1 ∧ w1.returned = false := by
  unfold DoWork at hd
  split at hd
  · rename_i f k hget
    simp only [Option.some.injEq] at hd
    subst hd
    have hc := countP_set_eq Coroutine.HasTask w.ctx.m_vecCoroutine i _
      { m_pTaskCtx := none } hget
    simp only [Coroutine.HasTask, Option.isSome_some, Option.isSome_none, if_true,
      Bool.false_eq_true, if_false] at hc
    have h1 := h.cnt
    have h2 := h.len_lt
    have h3 := List.countP_le_length Coroutine.HasTask (l := w.ctx.m_vecCoroutine)
    simp only [Coroutine.HasTask] at h1 h3
    refine ⟨⟨by simpa using h2, ?_, h.main, ?_⟩, hr⟩
    · simp only [Coroutine.HasTask, u32]
      omega
    · intro hret
      simp [hr] at hret
  · simp at hd

theorem workerInv_switchInto (w w1 : Worker) (i : Nat) (run : FiberRun)
    (hs : switchInto w i run = some w1) (h : WorkerInv w) (hr : w.returned = false) :
    WorkerInv w1 ∧ w1.returned = false := by
  cases run with
  | yields =>
    simp only [switchInto, Option.some.injEq] at hs
    subst hs
    exact ⟨h, hr⟩
  | returns => exact workerInv_DoWork w w1 i h hr hs

theorem workerInv_iterate (w w1 : Worker) (fuel : Nat) (run : FiberRun) (h : WorkerInv w)
    (hr : w.returned = false) (hs : LoopWork.iterate w fuel run = some w1) : WorkerInv w1 := by
  unfold LoopWork.iterate at hs
  split at hs
  · split at hs
    · simp at hs
    · rename_i pCur hget
      split at hs
      · simp only [Option.map_eq_some'] at hs
        obtain ⟨w2, hsw, rfl⟩ := hs
        exact workerInv_moveCursor _ (workerInv_switchInto w w2 _ run hsw h hr).1
      · rename_i hnt
        split at hs
        · simp at hs
        · rename_i q hpop
          split at hs
          · simp only [Option.some.injEq] at hs
            subst hs
            exact ⟨h.len_lt, h.cnt, h.main, fun e => by simp [hr] at e⟩
          · simp only [Option.some.injEq] at hs
            subst hs
            exact ⟨h.len_lt, h.cnt, h.main, fun e => by simp [hr] at e⟩
        · rename_i pTaskCtx q hpop
          simp only [Option.map_eq_some'] at hs
          obtain ⟨w2, hsw, rfl⟩ := hs
          refine workerInv_moveCursor _ (workerInv_switchInto _ w2 _ run hsw ?_ hr).1
          have hc := countP_set_eq Coroutine.HasTask w.ctx.m_vecCoroutine w.ctx.m_uCursor pCur
            (pCur.RegisterTask (some pTaskCtx)) hget
          have hnt1 : pCur.m_pTaskCtx.isSome = false := by
            simpa [Coroutine.HasTask] using hnt
          simp only [Coroutine.RegisterTask, Coroutine.HasTask, Option.isSome_some,
            if_true, hnt1, Bool.false_eq_true, if_false] at hc
          have h1 := h.cnt
          have h2 := h.len_lt
          have h3 := List.countP_le_length Coroutine.HasTask
            (l := w.ctx.m_vecCoroutine.set w.ctx.m_uCursor
              { m_pTaskCtx := some pTaskCtx })
          simp only [Coroutine.HasTask, List.length_set] at h1 h3
          refine ⟨by simpa using h2, ?_, h.main, fun e => by simp [hr] at e⟩
          simp only [Coroutine.HasTask, Coroutine.RegisterTask, u32]
          omega
  · rename_i hcond
    simp only [Option.some.injEq] at hs
    subst hs
    refine ⟨h.len_lt, h.cnt, h.main, fun _ => ?_⟩
    simp only [Bool.or_eq_true, decide_eq_true_eq, Bool.not_eq_true', not_or,
      Bool.not_eq_true, Bool.not_eq_false] at hcond
    obtain ⟨⟨ha, hb⟩, hc⟩ := hcond
    exact ⟨ha, Nat.eq_zero_of_not_pos hb, hc⟩

theorem workerInv_of_ctx (w w1 : Worker) (h : WorkerInv w) (hc : w1.ctx = w.ctx)
    (hr : w1.returned = false) : WorkerInv w1 :=
  ⟨by rw [hc]; exact h.len_lt, by rw [hc]; exact h.cnt, by rw [hc]; exact h.main,
    fun e => by simp [hr] at e⟩

theorem workerInv_step (w w1 : Worker) (e : WorkerEvent) (h : WorkerInv w)
    (hs : stepWorker w e = some w1) : WorkerInv w1 := by
  cases e with
  | iterate fuel run =>
    simp only [stepWorker] at hs
    split at hs
    · simp at hs
    · rename_i hr
      exact workerInv_iterate w w1 fuel run h (by simpa using hr) hs
  | submit fuel userFunc k =>
    simp only [stepWorker] at hs
    split at hs
    · simp at hs
    · rename_i hr
      simp only [Option.map_eq_some'] at hs
      obtain ⟨r, _, rfl⟩ := hs
      exact workerInv_of_ctx w _ h rfl (by simpa using hr)
  | run =>
    simp only [stepWorker] at hs
    split at hs
    · simp at hs
    · rename_i hr
      simp only [Option.some.injEq] at hs
      subst hs
      exact workerInv_of_ctx w _ h rfl (by simpa using hr)
  | stop =>
    simp only [stepWorker] at hs
    split at hs
    · simp at hs
    · rename_i hr
      simp only [Option.some.injEq] at hs
      subst hs
      exact workerInv_of_ctx w _ h rfl (by simpa using hr)
  | popElsewhere fuel =>
    simp only [stepWorker] at hs
    split at hs
    · simp at hs
    · rename_i hr
      simp only [Option.map_eq_some'] at hs
      obtain ⟨r, _, rfl⟩ := hs
      exact workerInv_of_ctx w _ h rfl (by simpa using hr)
  | others b q =>
    simp only [stepWorker] at hs
    split at hs
    · simp at hs
    · rename_i hr
      simp only [Option.some.injEq] at hs
      subst hs
      exact workerInv_of_ctx w _ h rfl (by simpa using hr)

theorem workerInv_run (evs : List WorkerEvent) (w w1 : Worker) (h : WorkerInv w)
    (hs : runWorker w evs = some w1) : WorkerInv w1 := by
  induction evs generalizing w with
  | nil =>
    simp only [runWorker, Option.some.injEq] at hs
    subst hs
    exact h
  | cons e es ih =>
    simp only [runWorker] at hs
    split at hs
    · rename_i w2 hstep
      exact ih w2 (workerInv_step w w2 e h hstep) hs
    · simp at hs

/-! ### The shared queue during a worker's run -/

/-- C8: in every state of a worker reached from the initialisation of
`LoopWork` by the steps of its loop, `m_uWorkCnt` equals the number of fibers
of the ring `m_vecCoroutine` for which `HasTask()` is true. -/
theorem C8_work_count_is_bound_fibers (oPool : CoroutinePool)
    (hcnt : oPool.m_uRoutineCnt < 4294967296) (evs : List WorkerEvent) (w : Worker)
    (hrun : runWorker (LoopWork.init oPool) evs = some w) :
    w.ctx.m_uWorkCnt = w.ctx.m_vecCoroutine.countP Coroutine.HasTask :=
  (workerInv_run evs _ w (workerInv_init oPool hcnt) hrun).cnt

theorem C8_work_count_is_bound_fibers_witness :
    samplePool.m_uRoutineCnt < 4294967296 ∧
    runWorker (LoopWork.init samplePool) [WorkerEvent.iterate 1 FiberRun.yields]
      = some sampleBound ∧
    sampleBound.ctx.m_uWorkCnt = sampleBound.ctx.m_vecCoroutine.countP Coroutine.HasTask :=
  ⟨by decide, by decide,
    C8_work_count_is_bound_fibers samplePool (by decide)
      [WorkerEvent.iterate 1 FiberRun.yields] sampleBound (by decide)⟩

/-- C9 (as stated) fails: right after `Register()` in the initialisation of
`LoopWork`, the main coroutine's task descriptor is not null and `HasTask()`
on it is true. -/
theorem C9_main_has_task_after_register :
    ∃ pMain, (LoopWork.init (CoroutinePool.ctor 1 1 4)).ctx.m_pMainCoroutine = some pMain ∧
      pMain.m_pTaskCtx ≠ none ∧ pMain.HasTask = true :=
  ⟨_, rfl, by decide, rfl⟩

/-- C9 (as amended): after `Register()` and in every later state of the worker
loop, the main coroutine's task descriptor is the placeholder made by
`Register()` (empty user function, null future), never a task taken from the
job queue; so `HasTask()` on the main coroutine is true, a coroutine having a
task exactly when its descriptor is non-null. -/
theorem C9_main_keeps_placeholder (oPool : CoroutinePool)
    (hcnt : oPool.m_uRoutineCnt < 4294967296) (evs : List WorkerEvent) (w : Worker)
    (hrun : runWorker (LoopWork.init oPool) evs = some w) :
    w.ctx.m_pMainCoroutine
        = some { m_pTaskCtx := some { m_userFunc := UserFunc.empty, m_pFuture := none } } ∧
      (∀ pMain, w.ctx.m_pMainCoroutine = some pMain → pMain.HasTask = true) ∧
      (∀ c : Coroutine, c.HasTask = true ↔ c.m_pTaskCtx ≠ none) := by
  have hinv := workerInv_run evs _ w (workerInv_init oPool hcnt) hrun
  refine ⟨hinv.main, ?_, ?_⟩
  · intro pMain hm
    rw [hinv.main] at hm
    simp only [Option.some.injEq] at hm
    subst hm
    rfl
  · intro c
    simp [Coroutine.HasTask, Option.isSome_iff_ne_none]

theorem C9_main_keeps_placeholder_witness :
    samplePool.m_uRoutineCnt < 4294967296 ∧
    runWorker (LoopWork.init samplePool)
        [WorkerEvent.iterate 1 FiberRun.yields, WorkerEvent.iterate 1 FiberRun.yields]
      = some sampleBoundNext ∧
    (sampleBoundNext.ctx.m_pMainCoroutine
        = some { m_pTaskCtx := some { m_userFunc := UserFunc.empty, m_pFuture := none } } ∧
      (∀ pMain, sampleBoundNext.ctx.m_pMainCoroutine = some pMain → pMain.HasTask = true) ∧
      (∀ c : Coroutine, c.HasTask = true ↔ c.m_pTaskCtx ≠ none)) :=
  ⟨by decide, by decide,
    C9_main_keeps_placeholder samplePool (by decide)
      [WorkerEvent.iterate 1 FiberRun.yields, WorkerEvent.iterate 1 FiberRun.yields]
      sampleBoundNext (by decide)⟩

/-! ## Bytes and words -/

theorem load64_lt (m : Nat → Nat) (p : Nat) : load64 m p < 18446744073709551616 := by
  unfold load64
  omega

theorem load64_congr (m m1 : Nat → Nat) (p : Nat) (h : ∀ i, i < 8 → m (p + i) = m1 (p + i)) :
    load64 m p = load64 m1 p := by
  unfold load64
  have h0 := h 0 (by omega)
  rw [Nat.add_zero] at h0
  rw [h0, h 1 (by omega), h 2 (by omega), h 3 (by omega), h 4 (by omega), h 5 (by omega),
    h 6 (by omega), h 7 (by omega)]

theorem store64_outside (m : Nat → Nat) (p v q : Nat) (h : q < p ∨ p + 8 ≤ q) :
    store64 m p v q = m q := by
  unfold store64
  rw [if_neg (by omega)]

theorem store64_inside (m : Nat → Nat) (p v i : Nat) (h : i < 8) :
    store64 m p v (p + i) = byteOf v i := by
  unfold store64
  rw [if_pos (by omega), Nat.add_sub_cancel_left]

theorem load64_store64_same (m : Nat → Nat) (p v : Nat) :
    load64 (store64 m p v) p = v % 18446744073709551616 := by
  unfold load64
  have h0 := store64_inside m p v 0 (by omega)
  rw [Nat.add_zero] at h0
  rw [h0, store64_inside m p v 1 (by omega), store64_inside m p v 2 (by omega),
    store64_inside m p v 3 (by omega), store64_inside m p v 4 (by omega),
    store64_inside m p v 5 (by omega), store64_inside m p v 6 (by omega),
    store64_inside m p v 7 (by omega)]
  simp only [byteOf]
  omega

theorem load64_store64_disj (m : Nat → Nat) (p v q : Nat) (h : q + 8 ≤ p ∨ p + 8 ≤ q) :
    load64 (store64 m p v) q = load64 m q :=
  load64_congr _ _ _ (fun i hi => store64_outside m p v (q + i) (by omega))

theorem land_clear_low4 (x : Nat) (h : x < 18446744073709551616) :
    Nat.land x 18446744073709551600 = x - x % 16 := by
  have e1 : (18446744073709551600 : Nat) = 2 ^ 4 * (2 ^ 60 - 1) := by norm_num
  have e2 : x - x % 16 = 2 ^ 4 * (x >>> 4) := by
    rw [Nat.shiftRight_eq_div_pow]
    have : (2 : Nat) ^ 4 = 16 := by norm_num
    rw [this]
    omega
  show x &&& 18446744073709551600 = x - x % 16
  rw [e2, e1]
  apply Nat.eq_of_testBit_eq
  intro i
  rw [Nat.testBit_and, Nat.testBit_mul_pow_two, Nat.testBit_mul_pow_two,
    Nat.testBit_two_pow_sub_one, Nat.testBit_shiftRight]
  by_cases h4 : i ≥ 4
  · have e3 : 4 + (i - 4) = i := by omega
    rw [e3]
    by_cases h64 : i < 64
    · have : i - 4 < 60 := by omega
      simp [h4, this]
    · have hx : x < 2 ^ i :=
        Nat.lt_of_lt_of_le h (by
          have : (18446744073709551616 : Nat) = 2 ^ 64 := by norm_num
          rw [this]
          exact Nat.pow_le_pow_right (by omega) (by omega))
      simp [Nat.testBit_lt_two_pow hx]
  · simp [h4]

theorem GetRsp_eq (pThis : Nat) (h : stackEnd pThis ≤ 18446744073709551616) :
    GetRsp pThis = (stackEnd pThis - 8) - (stackEnd pThis - 8) % 16 := by
  have h8 : 8 ≤ stackEnd pThis := by
    unfold stackEnd stackBegin FRAME_SIZE CO_STACK_SIZE; omega
  have e : u64 (stackEnd pThis + 18446744073709551616 - 8) = stackEnd pThis - 8 := by
    unfold u64; omega
  unfold GetRsp
  rw [e, land_clear_low4 _ (by omega)]

theorem u64_of_lt (n : Nat) (h : n < 18446744073709551616) : u64 n = n := by
  unfold u64; omega

theorem frame_load_congr (m m1 : Nat → Nat) (a k : Nat) (hk : k + 8 ≤ 112)
    (h : ∀ i, i < 112 → m (a + i) = m1 (a + i)) : load64 m (a + k) = load64 m1 (a + k) :=
  load64_congr _ _ _ (fun i hi => by
    have := h (k + i) (by omega)
    rwa [← Nat.add_assoc] at this)

/-! ## The two halves of `Switch` -/

/-- The save half changes no register but `%rax`. -/
theorem save_reg (s : Machine) (r : Reg) (h : r ≠ Reg.rax) :
    (s.exec Switch.save).reg r = s.reg r := by
  simp only [Machine.exec, Switch.save, List.foldl, Machine.exec1, Machine.setReg]
  simp [h]

/-- The save half writes only inside the frame to which `%rdi` points. -/
theorem save_mem_outside (s : Machine) (a q : Nat) (hrdi : s.reg Reg.rdi = a)
    (ha : a + 112 ≤ 18446744073709551616) (hq : q < a ∨ a + 112 ≤ q) :
    (s.exec Switch.save).mem q = s.mem q := by
  simp only [Machine.exec, Switch.save, List.foldl, Machine.exec1, Machine.setReg, Machine.ea]
  simp only [reduceCtorEq, if_false, if_true, hrdi]
  have e : ∀ k, k < 112 → u64 (a + k) = a + k := fun k hk => u64_of_lt _ (by omega)
  rw [e 104 (by omega), e 96 (by omega), e 88 (by omega), e 80 (by omega), e 72 (by omega),
    e 64 (by omega), e 56 (by omega), e 48 (by omega), e 40 (by omega), e 32 (by omega),
    e 24 (by omega), e 16 (by omega), e 8 (by omega), e 0 (by omega)]
  simp (disch := omega) only [store64_outside]

/-- The frame that the save half leaves at `%rdi`. -/
theorem save_frame (s : Machine) (a : Nat) (hrdi : s.reg Reg.rdi = a)
    (ha : a + 112 ≤ 18446744073709551616) :
    load64 (s.exec Switch.save).mem (a + 0) = s.reg Reg.r15 % 18446744073709551616 ∧
    load64 (s.exec Switch.save).mem (a + 8) = s.reg Reg.r14 % 18446744073709551616 ∧
    load64 (s.exec Switch.save).mem (a + 16) = s.reg Reg.r13 % 18446744073709551616 ∧
    load64 (s.exec Switch.save).mem (a + 24) = s.reg Reg.r12 % 18446744073709551616 ∧
    load64 (s.exec Switch.save).mem (a + 88) = s.reg Reg.rbx % 18446744073709551616 ∧
    load64 (s.exec Switch.save).mem (a + 96) = s.reg Reg.rsp % 18446744073709551616 ∧
    load64 (s.exec Switch.save).mem (a + 104) = s.reg Reg.rbp % 18446744073709551616 := by
  simp only [Machine.exec, Switch.save, List.foldl, Machine.exec1, Machine.setReg, Machine.ea]
  simp only [reduceCtorEq, if_false, if_true, hrdi]
  have e : ∀ k, k < 112 → u64 (a + k) = a + k := fun k hk => u64_of_lt _ (by omega)
  rw [e 104 (by omega), e 96 (by omega), e 88 (by omega), e 80 (by omega), e 72 (by omega),
    e 64 (by omega), e 56 (by omega), e 48 (by omega), e 40 (by omega), e 32 (by omega),
    e 24 (by omega), e 16 (by omega), e 8 (by omega), e 0 (by omega)]
  refine ⟨?_, ?_, ?_, ?_, ?_, ?_, ?_⟩ <;>
    simp (disch := omega) only [load64_store64_disj, load64_store64_same]

/-- The return address that the save half leaves in slot 8 of the frame, when
the word at the top of the stack does not overlap the slots 9 to 13, which are
written before that word is read. -/
theorem save_frame_ret (s : Machine) (a : Nat) (hrdi : s.reg Reg.rdi = a)
    (ha : a + 112 ≤ 18446744073709551616) (hrsp : s.reg Reg.rsp < 18446744073709551616)
    (hst : s.reg Reg.rsp + 8 ≤ a + 72 ∨ a + 112 ≤ s.reg Reg.rsp) :
    load64 (s.exec Switch.save).mem (a + 64) = load64 s.mem (s.reg Reg.rsp) := by
  simp only [Machine.exec, Switch.save, List.foldl, Machine.exec1, Machine.setReg, Machine.ea]
  simp only [reduceCtorEq, if_false, if_true, hrdi]
  have e : ∀ k, k < 112 → u64 (a + k) = a + k := fun k hk => u64_of_lt _ (by omega)
  rw [e 104 (by omega), e 96 (by omega), e 88 (by omega), e 80 (by omega), e 72 (by omega),
    e 64 (by omega), e 56 (by omega), e 48 (by omega), e 40 (by omega), e 32 (by omega),
    e 24 (by omega), e 16 (by omega), e 8 (by omega), e 0 (by omega)]
  have e0 : u64 (s.reg Reg.rsp + 0) = s.reg Reg.rsp := by
    rw [Nat.add_zero]; exact u64_of_lt _ hrsp
  rw [e0]
  simp (disch := omega) only [load64_store64_disj, load64_store64_same]
  exact Nat.mod_eq_of_lt (load64_lt _ _)

/-- The load half: every register comes from the frame to which `%rsi` points,
`%rax` ends as zero, and the only store writes slot 8 of the frame to the new
top of the stack. -/
theorem load_spec (t : Machine) (b : Nat) (hrsi : t.reg Reg.rsi = b)
    (hb : b + 112 ≤ 18446744073709551616) :
    (t.exec Switch.load).reg Reg.r15 = load64 t.mem (b + 0) ∧
    (t.exec Switch.load).reg Reg.r14 = load64 t.mem (b + 8) ∧
    (t.exec Switch.load).reg Reg.r13 = load64 t.mem (b + 16) ∧
    (t.exec Switch.load).reg Reg.r12 = load64 t.mem (b + 24) ∧
    (t.exec Switch.load).reg Reg.r9 = load64 t.mem (b + 32) ∧
    (t.exec Switch.load).reg Reg.r8 = load64 t.mem (b + 40) ∧
    (t.exec Switch.load).reg Reg.rdi = load64 t.mem (b + 48) ∧
    (t.exec Switch.load).reg Reg.rsi = load64 t.mem (b + 56) ∧
    (t.exec Switch.load).reg Reg.rdx = load64 t.mem (b + 72) ∧
    (t.exec Switch.load).reg Reg.rcx = load64 t.mem (b + 80) ∧
    (t.exec Switch.load).reg Reg.rbx = load64 t.mem (b + 88) ∧
    (t.exec Switch.load).reg Reg.rsp = load64 t.mem (b + 96) ∧
    (t.exec Switch.load).reg Reg.rbp = load64 t.mem (b + 104) ∧
    (t.exec Switch.load).reg Reg.rax = 0 ∧
    (t.exec Switch.load).mem
      = store64 t.mem (load64 t.mem (b + 96)) (load64 t.mem (b + 64)) := by
  simp only [Machine.exec, Switch.load, List.foldl, Machine.exec1, Machine.setReg, Machine.ea]
  simp only [reduceCtorEq, if_false, if_true, hrsi, Nat.xor_self]
  have e : ∀ k, k < 112 → u64 (b + k) = b + k := fun k hk => u64_of_lt _ (by omega)
  have e0 : u64 (load64 t.mem (b + 96) + 0) = load64 t.mem (b + 96) := by
    rw [Nat.add_zero]; exact u64_of_lt _ (load64_lt _ _)
  rw [e 104 (by omega), e 96 (by omega), e 88 (by omega), e 80 (by omega), e 72 (by omega),
    e 64 (by omega), e 56 (by omega), e 48 (by omega), e 40 (by omega), e 32 (by omega),
    e 24 (by omega), e 16 (by omega), e 8 (by omega), e 0 (by omega), e0]
  simp

theorem Switch_eq (s : Machine) : Switch s = (s.exec Switch.save).exec Switch.load := by
  simp only [Switch, Machine.exec, List.foldl_append]

/-! ## A saved frame is restored -/

/-- When `Switch(x, a)` is entered with a frame of `x` that does not overlap the
frame of `a`, its save half leaves the frame of `a` as it found it. -/
theorem save_keeps_other_frame (S2 : Machine) (a x : Nat) (hrdi2 : S2.reg Reg.rdi = x)
    (hx : x + 112 ≤ 18446744073709551616) (hxa : x + 112 ≤ a ∨ a + 112 ≤ x) :
    ∀ i, i < 112 → (S2.exec Switch.save).mem (a + i) = S2.mem (a + i) :=
  fun i _ => save_mem_outside S2 x (a + i) hrdi2 hx (by omega)

/-- C6: let `Switch(a, b)` be entered in a register state `R` (`RDI = a`), and
let a later `Switch(x, a)` (`RSI = a`) load the frame of `a` with its 112 bytes
still as the save half of the first call left them. Then afterwards `RBX`,
`RBP`, `R12`-`R15` and `RSP` have their values in `R`, and the word at the top
of the stack (at `RSP`) is the return address that was at the top of the stack
in `R`. The register state `R` is one in which `Switch` can be called: 64-bit
register values, the frame inside the address space, and a top-of-stack word
that does not overlap the slots 9 to 13 of the frame being saved (the callers
`Yield` and `LoopWork` run on `m_pStack` or on the thread stack, never inside
`m_pRegister`). -/
theorem C6_switch_restores_saved_frame (R S2 : Machine) (a : Nat)
    (hregs : ∀ r, R.reg r < 18446744073709551616)
    (hrdi : R.reg Reg.rdi = a)
    (ha : a + 112 ≤ 18446744073709551616)
    (hst : R.reg Reg.rsp + 8 ≤ a + 72 ∨ a + 112 ≤ R.reg Reg.rsp)
    (hrsi2 : S2.reg Reg.rsi = a)
    (hframe : ∀ i, i < 112 →
      (S2.exec Switch.save).mem (a + i) = (R.exec Switch.save).mem (a + i)) :
    (Switch S2).reg Reg.rbx = R.reg Reg.rbx ∧
    (Switch S2).reg Reg.rbp = R.reg Reg.rbp ∧
    (Switch S2).reg Reg.r12 = R.reg Reg.r12 ∧
    (Switch S2).reg Reg.r13 = R.reg Reg.r13 ∧
    (Switch S2).reg Reg.r14 = R.reg Reg.r14 ∧
    (Switch S2).reg Reg.r15 = R.reg Reg.r15 ∧
    (Switch S2).reg Reg.rsp = R.reg Reg.rsp ∧
    load64 (Switch S2).mem ((Switch S2).reg Reg.rsp) = load64 R.mem (R.reg Reg.rsp) := by
  have hsi : (S2.exec Switch.save).reg Reg.rsi = a := by
    rw [save_reg S2 Reg.rsi (by decide)]; exact hrsi2
  have hl : ∀ k, k + 8 ≤ 112 →
      load64 (S2.exec Switch.save).mem (a + k) = load64 (R.exec Switch.save).mem (a + k) :=
    fun k hk => frame_load_congr _ _ a k hk hframe
  obtain ⟨f15, f14, f13, f12, fbx, fsp, fbp⟩ := save_frame R a hrdi ha
  have fret := save_frame_ret R a hrdi ha (hregs Reg.rsp) hst
  obtain ⟨l15, l14, l13, l12, _, _, _, _, _, _, lbx, lsp, lbp, _, lmem⟩ :=
    load_spec (S2.exec Switch.save) a hsi ha
  rw [Switch_eq]
  have m := fun r => Nat.mod_eq_of_lt (hregs r)
  have esp : ((S2.exec Switch.save).exec Switch.load).reg Reg.rsp = R.reg Reg.rsp := by
    rw [lsp, hl 96 (by omega), fsp, m]
  refine ⟨?_, ?_, ?_, ?_, ?_, ?_, esp, ?_⟩
  · rw [lbx, hl 88 (by omega), fbx, m]
  · rw [lbp, hl 104 (by omega), fbp, m]
  · rw [l12, hl 24 (by omega), f12, m]
  · rw [l13, hl 16 (by omega), f13, m]
  · rw [l14, hl 8 (by omega), f14, m]
  · rw [l15, hl 0 (by omega), f15, m]
  · rw [esp, lmem, hl 96 (by omega), fsp, m, load64_store64_same, hl 64 (by omega), fret]
    exact Nat.mod_eq_of_lt (load64_lt _ _)

theorem C6_switch_restores_saved_frame_witness :
    (∀ r, sampleCall.reg r < 18446744073709551616) ∧
    sampleCall.reg Reg.rdi = 1000 ∧
    1000 + 112 ≤ 18446744073709551616 ∧
    (sampleCall.reg Reg.rsp + 8 ≤ 1000 + 72 ∨ 1000 + 112 ≤ sampleCall.reg Reg.rsp) ∧
    sampleResume.reg Reg.rsi = 1000 ∧
    (∀ i, i < 112 →
      (sampleResume.exec Switch.save).mem (1000 + i)
        = (sampleCall.exec Switch.save).mem (1000 + i)) ∧
    ((Switch sampleResume).reg Reg.rbx = sampleCall.reg Reg.rbx ∧
      (Switch sampleResume).reg Reg.rbp = sampleCall.reg Reg.rbp ∧
      (Switch sampleResume).reg Reg.r12 = sampleCall.reg Reg.r12 ∧
      (Switch sampleResume).reg Reg.r13 = sampleCall.reg Reg.r13 ∧
      (Switch sampleResume).reg Reg.r14 = sampleCall.reg Reg.r14 ∧
      (Switch sampleResume).reg Reg.r15 = sampleCall.reg Reg.r15 ∧
      (Switch sampleResume).reg Reg.rsp = sampleCall.reg Reg.rsp ∧
      load64 (Switch sampleResume).mem ((Switch sampleResume).reg Reg.rsp)
        = load64 sampleCall.mem (sampleCall.reg Reg.rsp)) :=
  have hkept : ∀ i, i < 112 →
      sampleResume.mem (1000 + i) = (sampleCall.exec Switch.save).mem (1000 + i) := by
    decide
  have hframe : ∀ i, i < 112 →
      (sampleResume.exec Switch.save).mem (1000 + i)
        = (sampleCall.exec Switch.save).mem (1000 + i) :=
    fun i hi =>
      (save_keeps_other_frame sampleResume 1000 3000 rfl (by decide) (by decide) i hi).trans
        (hkept i hi)
  ⟨by intro r; cases r <;> decide, rfl, by decide, by decide, rfl, hframe,
    C6_switch_restores_saved_frame sampleCall sampleResume 1000
      (by intro r; cases r <;> decide) rfl (by decide) (by decide) rfl hframe⟩

/-! ## The first entry into a fiber -/

theorem load64_memset_zero (m : Nat → Nat) (p n q : Nat) (h1 : p ≤ q) (h2 : q + 8 ≤ p + n) :
    load64 (memset m p 0 n) q = 0 := by
  have e : ∀ i, i < 8 → memset m p 0 n (q + i) = 0 := by
    intro i hi
    unfold memset
    rw [if_pos (by omega)]
  unfold load64
  have e0 := e 0 (by omega)
  rw [Nat.add_zero] at e0
  rw [e0, e 1 (by omega), e 2 (by omega), e 3 (by omega), e 4 (by omega), e 5 (by omega),
    e 6 (by omega), e 7 (by omega)]

theorem GetRsp_bounds (pThis : Nat) (h : stackEnd pThis ≤ 18446744073709551616) :
    GetRsp pThis % 16 = 0 ∧ stackBegin pThis ≤ GetRsp pThis ∧
      GetRsp pThis + 8 ≤ stackEnd pThis := by
  rw [GetRsp_eq pThis h]
  unfold stackEnd stackBegin FRAME_SIZE CO_STACK_SIZE at *
  omega

/-- The frame and the stack cell that `SaveReg` leaves. -/
theorem saveReg_frame (m : Nat → Nat) (pThis DoWork : Nat)
    (hobj : stackEnd pThis ≤ 18446744073709551616) (hdw : DoWork < 18446744073709551616) :
    load64 (SaveReg m pThis DoWork) (pThis + 0) = 0 ∧
    load64 (SaveReg m pThis DoWork) (pThis + 8) = 0 ∧
    load64 (SaveReg m pThis DoWork) (pThis + 16) = 0 ∧
    load64 (SaveReg m pThis DoWork) (pThis + 24) = 0 ∧
    load64 (SaveReg m pThis DoWork) (pThis + 32) = 0 ∧
    load64 (SaveReg m pThis DoWork) (pThis + 40) = 0 ∧
    load64 (SaveReg m pThis DoWork) (pThis + 48) = pThis ∧
    load64 (SaveReg m pThis DoWork) (pThis + 56) = 0 ∧
    load64 (SaveReg m pThis DoWork) (pThis + 64) = DoWork ∧
    load64 (SaveReg m pThis DoWork) (pThis + 72) = 0 ∧
    load64 (SaveReg m pThis DoWork) (pThis + 80) = 0 ∧
    load64 (SaveReg m pThis DoWork) (pThis + 88) = 0 ∧
    load64 (SaveReg m pThis DoWork) (pThis + 96) = GetRsp pThis ∧
    load64 (SaveReg m pThis DoWork) (pThis + 104) = 0 := by
  obtain ⟨_, hb1, hb2⟩ := GetRsp_bounds pThis hobj
  simp only [SaveReg, regSlot]
  unfold stackBegin stackEnd FRAME_SIZE CO_STACK_SIZE at *
  generalize GetRsp pThis = sp at *
  have hsp : sp < 18446744073709551616 := by omega
  have hthis : pThis < 18446744073709551616 := by omega
  refine ⟨?_, ?_, ?_, ?_, ?_, ?_, ?_, ?_, ?_, ?_, ?_, ?_, ?_, ?_⟩ <;>
    simp (disch := omega) only [load64_store64_disj, load64_store64_same,
      load64_memset_zero, Nat.mod_eq_of_lt, Nat.mod_eq_of_lt hdw, Nat.mod_eq_of_lt hsp,
      Nat.mod_eq_of_lt hthis]

/-- C7: after `Register(taskCtx)` has primed the fiber at `pThis` and
`Switch(main, fiber)` has loaded its frame, `RSP` is the value `sp` computed by
`GetRsp`; `sp` is a multiple of 16; the 8-byte word at `sp` lies inside
`m_pStack`; that word holds the address of `DoWork`; `RDI` holds the fiber
pointer; every other register is zero; and the slots 12, 8 and 6 written by
`SaveReg` are at the byte offsets 96, 64 and 48 that `Switch` reads. -/
theorem C7_first_entry_state (m : Nat → Nat) (regs : Reg → Nat) (pMain pThis DoWork : Nat)
    (hobj : stackEnd pThis ≤ 18446744073709551616)
    (hdw : DoWork < 18446744073709551616)
    (hmain : pMain + FRAME_SIZE ≤ 18446744073709551616)
    (hsep : pMain + FRAME_SIZE ≤ pThis ∨ pThis + FRAME_SIZE ≤ pMain)
    (hrdi : regs Reg.rdi = pMain) (hrsi : regs Reg.rsi = pThis) :
    (Switch { reg := regs, mem := SaveReg m pThis DoWork }).reg Reg.rsp = GetRsp pThis ∧
    GetRsp pThis % 16 = 0 ∧
    stackBegin pThis ≤ GetRsp pThis ∧ GetRsp pThis + 8 ≤ stackEnd pThis ∧
    load64 (Switch { reg := regs, mem := SaveReg m pThis DoWork }).mem (GetRsp pThis)
      = DoWork ∧
    (Switch { reg := regs, mem := SaveReg m pThis DoWork }).reg Reg.rdi = pThis ∧
    (∀ r, r ≠ Reg.rsp → r ≠ Reg.rdi →
      (Switch { reg := regs, mem := SaveReg m pThis DoWork }).reg r = 0) ∧
    regSlot pThis 12 = pThis + 96 ∧ regSlot pThis 8 = pThis + 64 ∧
    regSlot pThis 6 = pThis + 48 := by
  obtain ⟨hal, hb1, hb2⟩ := GetRsp_bounds pThis hobj
  have hthis : pThis + 112 ≤ 18446744073709551616 := by
    unfold stackEnd stackBegin FRAME_SIZE at hobj; omega
  unfold FRAME_SIZE at hmain hsep
  have hsi : (Machine.exec { reg := regs, mem := SaveReg m pThis DoWork } Switch.save).reg
      Reg.rsi = pThis := by
    rw [save_reg _ Reg.rsi (by decide)]; exact hrsi
  have hl : ∀ k, k + 8 ≤ 112 →
      load64 (Machine.exec { reg := regs, mem := SaveReg m pThis DoWork } Switch.save).mem
          (pThis + k)
        = load64 (SaveReg m pThis DoWork) (pThis + k) := by
    intro k hk
    apply frame_load_congr _ _ pThis k hk
    intro i hi
    exact save_mem_outside _ pMain (pThis + i) hrdi hmain (by omega)
  obtain ⟨f0, f8, f16, f24, f32, f40, f48, f56, f64, f72, f80, f88, f96, f104⟩ :=
    saveReg_frame m pThis DoWork hobj hdw
  obtain ⟨l15, l14, l13, l12, l9, l8, ldi, lsi, ldx, lcx, lbx, lsp, lbp, lax, lmem⟩ :=
    load_spec _ pThis hsi hthis
  rw [Switch_eq]
  refine ⟨?_, hal, hb1, hb2, ?_, ?_, ?_, ?_, ?_, ?_⟩
  · rw [lsp, hl 96 (by omega), f96]
  · rw [lmem, hl 96 (by omega), f96, hl 64 (by omega), f64, load64_store64_same]
    exact Nat.mod_eq_of_lt hdw
  · rw [ldi, hl 48 (by omega), f48]
  · intro r h1 h2
    cases r
    · exact lax
    · rw [lbx, hl 88 (by omega), f88]
    · rw [lcx, hl 80 (by omega), f80]
    · rw [ldx, hl 72 (by omega), f72]
    · rw [lsi, hl 56 (by omega), f56]
    · exact absurd rfl h2
    · rw [lbp, hl 104 (by omega), f104]
    · exact absurd rfl h1
    · rw [l8, hl 40 (by omega), f40]
    · rw [l9, hl 32 (by omega), f32]
    · rw [l12, hl 24 (by omega), f24]
    · rw [l13, hl 16 (by omega), f16]
    · rw [l14, hl 8 (by omega), f8]
    · rw [l15, hl 0 (by omega), f0]
  · rfl
  · rfl
  · rfl

theorem C7_first_entry_state_witness :
    stackEnd 4096 ≤ 18446744073709551616 ∧
    (4198400 : Nat) < 18446744073709551616 ∧
    1000 + FRAME_SIZE ≤ 18446744073709551616 ∧
    (1000 + FRAME_SIZE ≤ 4096 ∨ 4096 + FRAME_SIZE ≤ 1000) ∧
    sampleMainRegs Reg.rdi = 1000 ∧ sampleMainRegs Reg.rsi = 4096 ∧
    ((Switch { reg := sampleMainRegs, mem := SaveReg (fun _ => 255) 4096 4198400 }).reg Reg.rsp
        = GetRsp 4096 ∧
      GetRsp 4096 % 16 = 0 ∧
      stackBegin 4096 ≤ GetRsp 4096 ∧ GetRsp 4096 + 8 ≤ stackEnd 4096 ∧
      load64 (Switch { reg := sampleMainRegs, mem := SaveReg (fun _ => 255) 4096 4198400 }).mem
          (GetRsp 4096)
        = 4198400 ∧
      (Switch { reg := sampleMainRegs, mem := SaveReg (fun _ => 255) 4096 4198400 }).reg Reg.rdi
        = 4096 ∧
      (∀ r, r ≠ Reg.rsp → r ≠ Reg.rdi →
        (Switch { reg := sampleMainRegs, mem := SaveReg (fun _ => 255) 4096 4198400 }).reg r
          = 0) ∧
      regSlot 4096 12 = 4096 + 96 ∧ regSlot 4096 8 = 4096 + 64 ∧
      regSlot 4096 6 = 4096 + 48) :=
  ⟨by decide, by decide, by decide, by decide, rfl, rfl,
    C7_first_entry_state (fun _ => 255) sampleMainRegs 1000 4096 4198400
      (by decide) (by decide) (by decide) (by decide) rfl rfl⟩

end comm
